import Mathlib

/-!
Verification development for the `swc_macro_sys` repository: a build-time
conditional-compilation and tree-shaking transformer for webpack-style
bundles.  The Rust sources are embedded shallowly:

* `swc_core::common::Span` becomes a pair of byte offsets;
* `serde_json::Value` becomes the inductive `Json`;
* the metadata evaluator (`meta_data.rs`), the directive pairing and the
  remove/replace transformer (`lib.rs` of `swc_macro_condition_transform`),
  and the webpack graph crate (`graph.rs`, `tree_shaker.rs`, `parser.rs`)
  become executable Lean functions;
* Rust `FxHashMap` values are modelled as association lists whose keys are
  kept distinct by overwrite-on-insert, and `FxHashSet` values as
  duplicate-free lists built with `List.insert`; the observable behaviour
  of the claims (membership, key sets) does not depend on hash order;
* Rust panics (`expect`) are modelled as `Except.error msg`: the Rust
  function type has no error channel, so an `error` outcome corresponds to
  abnormal termination with the given fixed message.
-/

namespace SwcMacroSys

/-- Byte-offset span, mirroring `swc_core::common::Span` (lo/hi `BytePos`). -/
structure Span where
  lo : Nat
  hi : Nat
deriving DecidableEq, Repr

/-- `swc_common`'s `Span::contains`: `self.lo <= other.lo && other.hi <= self.hi`. -/
def Span.spanContains (s other : Span) : Bool :=
  s.lo ≤ other.lo && other.hi ≤ s.hi

/-- `swc_common::DUMMY_SP`: the zero span used for synthesised nodes. -/
def DUMMY_SP : Span := ⟨0, 0⟩

/-! ## JSON values (`serde_json::Value`)

Numbers are modelled as integers: the claims under study never inspect the
numeric payload (the evaluator's `as_bool` rejects every number), so the
f64 payload of `serde_json::Number` is abstracted to `Int`. -/

inductive Json where
  | null : Json
  | bool (b : Bool) : Json
  | num (n : Int) : Json
  | str (s : String) : Json
  | arr (items : List Json) : Json
  | obj (fields : List (String × Json)) : Json

/-- `serde_json::Value::get(&str)`: field lookup on objects, `None` on every
other value kind (string indexing is not defined on arrays). -/
def Json.getField (v : Json) (seg : String) : Option Json :=
  match v with
  | .obj fields => fields.lookup seg
  | _ => none

/-- Structural split of a character list on `'.'`: the behaviour of Rust's
`str::split('.')` (an empty input yields one empty segment). -/
def splitOnDot : List Char → List (List Char)
  | [] => [[]]
  | c :: rest =>
    if c = '.' then [] :: splitOnDot rest
    else
      match splitOnDot rest with
      | [] => [[c]]
      | seg :: segs => (c :: seg) :: segs

/-- `path.split('.')` as a list of strings. -/
def splitDot (s : String) : List String :=
  (splitOnDot s.toList).map (fun seg => String.mk seg)

/-- `Metadata::query` (meta_data.rs, lines 17-23): split the path on `.` and
descend with `Value::get` through each segment. -/
def query (v : Json) (path : String) : Option Json :=
  (splitDot path).foldl (fun acc seg => acc.bind (fun w => w.getField seg)) (some v)

/-- `Metadata::evaluate_bool` (meta_data.rs, lines 25-37): query the path;
return the boolean when the value `as_bool` succeeds, otherwise `false`. -/
def evaluate_bool (v : Json) (path : String) : Bool :=
  match query v path with
  | none => false
  | some value =>
    match value with
    | .bool b => b
    | _ => false

/-- Transcription of the spec's truthiness table (§3 of the spec): booleans
are themselves; strings/arrays/objects are truthy iff non-empty; numbers are
truthy iff non-zero (the `Int` model has no non-finite values); null and an
absent value are falsy.  Used only to compare the spec's claimed semantics
with the implementation's `evaluate_bool`. -/
def specTruthy : Option Json → Bool
  | none => false
  | some .null => false
  | some (.bool b) => b
  | some (.num n) => decide (n ≠ 0)
  | some (.str s) => !s.isEmpty
  | some (.arr items) => !items.isEmpty
  | some (.obj fields) => !fields.isEmpty

/-! ## Syntax tree

A shallow model of the subset of the `swc_core` ECMAScript AST traversed by
the repository's visitors: expressions, statements, module items, object
properties and variable declarators, each carrying its source span. -/

/-- Object-literal property name (`PropName`): numeric, string or identifier. -/
inductive PropKey where
  | num (n : Int)
  | str (s : String)
  | identKey (name : String)
deriving DecidableEq, Repr

mutual
inductive Expr where
  | nullLit (span : Span)
  | boolLit (span : Span) (b : Bool)
  | numLit (span : Span) (n : Int)
  | strLit (span : Span) (s : String)
  | ident (span : Span) (name : String)
  | call (span : Span) (callee : Expr) (args : List Expr)
  | paren (span : Span) (inner : Expr)
  | fnExpr (span : Span) (params : List String) (body : List Stmt)
  | assign (span : Span) (target : String) (rhs : Expr)
  | array (span : Span) (elems : List Expr)
  | object (span : Span) (props : List ObjProp)

inductive ObjProp where
  | keyValue (key : PropKey) (value : Expr)

inductive Stmt where
  | empty (span : Span)
  | exprStmt (span : Span) (e : Expr)
  | block (span : Span) (stmts : List Stmt)
  | varDecl (span : Span) (decls : List VarDeclarator)

inductive VarDeclarator where
  | mk (name : String) (init : Option Expr)
end

/-- The span attached to an expression node. -/
def Expr.span : Expr → Span
  | .nullLit sp => sp
  | .boolLit sp _ => sp
  | .numLit sp _ => sp
  | .strLit sp _ => sp
  | .ident sp _ => sp
  | .call sp _ _ => sp
  | .paren sp _ => sp
  | .fnExpr sp _ _ => sp
  | .assign sp _ _ => sp
  | .array sp _ => sp
  | .object sp _ => sp

/-- `Spanned::span_lo` for expressions. -/
def Expr.spanLo (e : Expr) : Nat := e.span.lo

/-- The span attached to a statement node. -/
def Stmt.span : Stmt → Span
  | .empty sp => sp
  | .exprStmt sp _ => sp
  | .block sp _ => sp
  | .varDecl sp _ => sp

/-- Module items: statements plus (opaque) module-level declarations. -/
inductive ModuleItem where
  | stmt (s : Stmt)
  | importDecl (span : Span) (src : String)

/-- The span attached to a module item. -/
def ModuleItem.span : ModuleItem → Span
  | .stmt s => s.span
  | .importDecl sp _ => sp

/-! ## Macro nodes and directives (`swc_macro_parser`, `directive.rs`) -/

/-- `MacroNode` from `swc_macro_parser`: the flattened annotation.  The Rust
field `namespace` is a Lean keyword and is rendered `nmspace`; `attrs` is an
`FxHashMap<String, String>` modelled as an association list with distinct
keys, looked up with `List.lookup`. -/
structure MacroNode where
  span : Span
  nmspace : String
  directive : String
  attrs : List (String × String)
deriving DecidableEq, Repr

/-- `IfDirective` (directive.rs). -/
structure IfDirective where
  range : Span
  condition : String
deriving DecidableEq, Repr

/-- `DefineInlineDirective` (directive.rs). -/
structure DefineInlineDirective where
  pos : Nat
  value : String
  default : Option String
deriving DecidableEq, Repr

/-- `Directive` (directive.rs). -/
inductive Directive where
  | ifD (d : IfDirective)
  | defineInline (d : DefineInlineDirective)
deriving DecidableEq, Repr

/-! ## `ToSwcAst` (meta_data.rs, lines 40-98) -/

mutual
/-- `Value::to_ast`: materialise a JSON value as a literal expression with
`DUMMY_SP`.  Arrays become array literals (no spread), objects become object
literals with string-literal keys in field order. -/
def Json.to_ast : Json → Expr
  | .null => .nullLit DUMMY_SP
  | .bool b => .boolLit DUMMY_SP b
  | .num n => .numLit DUMMY_SP n
  | .str s => .strLit DUMMY_SP s
  | .arr values => .array DUMMY_SP (Json.arrToAst values)
  | .obj map => .object DUMMY_SP (Json.fieldsToAst map)

def Json.arrToAst : List Json → List Expr
  | [] => []
  | v :: vs => Json.to_ast v :: Json.arrToAst vs

def Json.fieldsToAst : List (String × Json) → List ObjProp
  | [] => []
  | (k, v) :: rest => .keyValue (.str k) (Json.to_ast v) :: Json.fieldsToAst rest
end

/-- `String::to_ast`: a string default becomes a string literal. -/
def stringToAst (s : String) : Expr := .strLit DUMMY_SP s

/-! ## `condition_transform` (swc_macro_condition_transform/src/lib.rs)

The Rust function returns `VisitMutPass<RemoveReplaceTransformer>` and has
no error channel; its failure points are `expect` panics.  The embedding
returns `Except String RemoveReplaceTransformer` where `Except.error msg`
models a panic with exactly that message. -/

/-- The remove/replace transformer state (lib.rs, lines 100-107). -/
structure RemoveReplaceTransformer where
  remove_list : List Span
  replace_expr_list : List (Nat × Expr)

/-- `macros.sort_by_key(|m| m.0)` (lib.rs, line 28). -/
def sortMacros (macros : List (Nat × MacroNode)) : List (Nat × MacroNode) :=
  List.insertionSort (fun a b => a.1 ≤ b.1) macros

/-- One step of the directive-parsing loop (lib.rs, lines 33-61): an `if`
pushes onto the stack, an `endif` pops and emits a `Conditional` range, a
`define-inline` emits a value directive; missing attributes and a stray
`endif` panic (`expect`). -/
def parseDirectivesStep (acc : List Directive × List (Nat × String)) (m : Nat × MacroNode) :
    Except String (List Directive × List (Nat × String)) :=
  let (directives, if_stack) := acc
  let (ast_pos, macro_node) := m
  match macro_node.directive with
  | "if" =>
    match List.lookup "condition" macro_node.attrs with
    | some condition => .ok (directives, (ast_pos, condition) :: if_stack)
    | none => .error "No `condition` attr in if directive"
  | "endif" =>
    match if_stack with
    | (start_pos, condition) :: rest =>
      .ok (directives ++ [.ifD ⟨⟨start_pos, ast_pos⟩, condition⟩], rest)
    | [] => .error "Unpaired :if directive"
  | "define-inline" =>
    match List.lookup "value" macro_node.attrs with
    | some value =>
      .ok (directives ++ [.defineInline ⟨ast_pos, value, List.lookup "default" macro_node.attrs⟩],
           if_stack)
    | none => .error "No `value` attr in define-inline directive"
  | _ => .ok (directives, if_stack)

/-- One step of the directive-evaluation loop (lib.rs, lines 66-88): a falsy
conditional inserts its range into the remove set; a `define-inline` queries
the metadata, falls back to the default string, and panics when neither
resolves. -/
def evalDirectivesStep (meta_data : Json) (acc : List Span × List (Nat × Expr))
    (directive : Directive) : Except String (List Span × List (Nat × Expr)) :=
  let (remove_list, replace_expr_list) := acc
  match directive with
  | .ifD if_directive =>
    if evaluate_bool meta_data if_directive.condition then
      .ok (remove_list, replace_expr_list)
    else
      .ok (remove_list.insert if_directive.range, replace_expr_list)
  | .defineInline d =>
    match (query meta_data d.value).map Json.to_ast <|> d.default.map stringToAst with
    | some replacement => .ok (remove_list, replace_expr_list ++ [(d.pos, replacement)])
    | none => .error "`value` or `default` is invalid"

/-- `condition_transform` (lib.rs, lines 24-96).  Note that a non-empty
`if_stack` left over at end of input is silently discarded, exactly as in
the source. -/
def condition_transform (meta_data : Json) (macros : List (Nat × MacroNode)) :
    Except String RemoveReplaceTransformer := do
  let sorted := sortMacros macros
  let (directives, _if_stack) ← sorted.foldlM parseDirectivesStep ([], [])
  let (remove_list, replace_expr_list) ← directives.foldlM (evalDirectivesStep meta_data) ([], [])
  return { remove_list := remove_list, replace_expr_list := replace_expr_list }

/-! ## The remove/replace visitor (lib.rs, lines 109-162)

`visit_mut_pass` drives a standard `VisitMut` traversal; the three
overridden methods are modelled below, with the default child traversal
inlined per constructor. -/

/-- The rule prefix of `RemoveReplaceTransformer::visit_mut_expr` (lib.rs,
lines 140-161): the replace list is consulted first (keyed on `span_lo`),
then the remove list (span containment); a hit returns without descending;
otherwise the children traversal (the thunk) runs. -/
def exprRules (t : RemoveReplaceTransformer) (node : Expr) (children : Unit → Expr) : Expr :=
  match t.replace_expr_list.find? (fun pr => pr.1 == node.spanLo) with
  | some pr => pr.2
  | none =>
    if t.remove_list.any (fun remove => remove.spanContains node.span) then
      .nullLit DUMMY_SP
    else children ()

/-- The rule prefix of `RemoveReplaceTransformer::visit_mut_stmt` (lib.rs,
lines 125-138): a statement contained in a removal range is replaced in
place by `Stmt::Empty` with `DUMMY_SP`; otherwise children are visited. -/
def stmtRules (t : RemoveReplaceTransformer) (node : Stmt) (children : Unit → Stmt) : Stmt :=
  if t.remove_list.any (fun remove => remove.spanContains node.span) then
    .empty DUMMY_SP
  else children ()

/-- The rule prefix of `RemoveReplaceTransformer::visit_mut_module_item`
(lib.rs, lines 110-123): a module item contained in a removal range is
replaced in place by `ModuleItem::Stmt(Stmt::Empty)` with `DUMMY_SP`;
otherwise children are visited. -/
def itemRules (t : RemoveReplaceTransformer) (node : ModuleItem)
    (children : Unit → ModuleItem) : ModuleItem :=
  if t.remove_list.any (fun remove => remove.spanContains node.span) then
    .stmt (.empty DUMMY_SP)
  else children ()

mutual
/-- `RemoveReplaceTransformer::visit_mut_expr` (lib.rs, lines 140-161):
apply the rules at this node; the children thunk is the default
`visit_mut_children_with` traversal. -/
def visit_mut_expr (t : RemoveReplaceTransformer) : Expr → Expr
  | .nullLit sp => exprRules t (.nullLit sp) (fun _ => .nullLit sp)
  | .boolLit sp b => exprRules t (.boolLit sp b) (fun _ => .boolLit sp b)
  | .numLit sp n => exprRules t (.numLit sp n) (fun _ => .numLit sp n)
  | .strLit sp s => exprRules t (.strLit sp s) (fun _ => .strLit sp s)
  | .ident sp name => exprRules t (.ident sp name) (fun _ => .ident sp name)
  | .call sp callee args =>
    exprRules t (.call sp callee args)
      (fun _ => .call sp (visit_mut_expr t callee) (visitExprList t args))
  | .paren sp inner => exprRules t (.paren sp inner) (fun _ => .paren sp (visit_mut_expr t inner))
  | .fnExpr sp params body =>
    exprRules t (.fnExpr sp params body) (fun _ => .fnExpr sp params (visitStmtList t body))
  | .assign sp target rhs =>
    exprRules t (.assign sp target rhs) (fun _ => .assign sp target (visit_mut_expr t rhs))
  | .array sp elems => exprRules t (.array sp elems) (fun _ => .array sp (visitExprList t elems))
  | .object sp props =>
    exprRules t (.object sp props) (fun _ => .object sp (visitPropList t props))

def visitExprList (t : RemoveReplaceTransformer) : List Expr → List Expr
  | [] => []
  | e :: es => visit_mut_expr t e :: visitExprList t es

def visitPropList (t : RemoveReplaceTransformer) : List ObjProp → List ObjProp
  | [] => []
  | .keyValue key value :: rest => .keyValue key (visit_mut_expr t value) :: visitPropList t rest

/-- `RemoveReplaceTransformer::visit_mut_stmt` (lib.rs, lines 125-138). -/
def visit_mut_stmt (t : RemoveReplaceTransformer) : Stmt → Stmt
  | .empty sp => stmtRules t (.empty sp) (fun _ => .empty sp)
  | .exprStmt sp e => stmtRules t (.exprStmt sp e) (fun _ => .exprStmt sp (visit_mut_expr t e))
  | .block sp stmts => stmtRules t (.block sp stmts) (fun _ => .block sp (visitStmtList t stmts))
  | .varDecl sp decls =>
    stmtRules t (.varDecl sp decls) (fun _ => .varDecl sp (visitDeclList t decls))

def visitStmtList (t : RemoveReplaceTransformer) : List Stmt → List Stmt
  | [] => []
  | s :: ss => visit_mut_stmt t s :: visitStmtList t ss

def visitDeclList (t : RemoveReplaceTransformer) : List VarDeclarator → List VarDeclarator
  | [] => []
  | .mk name init :: rest =>
    .mk name (match init with | none => none | some e => some (visit_mut_expr t e))
      :: visitDeclList t rest
end

/-- `RemoveReplaceTransformer::visit_mut_module_item` (lib.rs, lines
110-123). -/
def visit_mut_module_item (t : RemoveReplaceTransformer) : ModuleItem → ModuleItem
  | .stmt s => itemRules t (.stmt s) (fun _ => .stmt (visit_mut_stmt t s))
  | .importDecl sp src => itemRules t (.importDecl sp src) (fun _ => .importDecl sp src)

/-- The default `visit_mut_module_items` traversal: each item is visited in
place; the container never changes length. -/
def visit_mut_module_items (t : RemoveReplaceTransformer) (items : List ModuleItem) :
    List ModuleItem :=
  items.map (visit_mut_module_item t)

/-! ## Association-list maps

`FxHashMap<String, _>` is modelled as an association list.  `mapInsert`
overwrites in place, so maps built from `[]` have distinct keys; `mapFind?`
returns the first (hence unique) binding; `mapModify` rewrites the binding
in place; removal filters the key out. -/

/-- `HashMap::get`. -/
def mapFind? {β : Type} : List (String × β) → String → Option β
  | [], _ => none
  | (k, v) :: rest, key => if k = key then some v else mapFind? rest key

/-- `HashMap::insert` (overwrite-on-collision). -/
def mapInsert {β : Type} : List (String × β) → String → β → List (String × β)
  | [], key, value => [(key, value)]
  | (k, v) :: rest, key, value =>
    if k = key then (key, value) :: rest else (k, v) :: mapInsert rest key value

/-- `HashMap::get_mut` followed by an in-place update. -/
def mapModify {β : Type} : List (String × β) → String → (β → β) → List (String × β)
  | [], _, _ => []
  | (k, v) :: rest, key, f =>
    if k = key then (k, f v) :: rest else (k, v) :: mapModify rest key f

/-! ## `ModuleNode` and `ModuleGraph` (webpack_graph/src/graph.rs)

`FxHashSet<String>` fields are modelled as duplicate-free `List String`
built with `List.insert`; the claims only observe membership. -/

/-- `ModuleNode` (graph.rs, lines 6-16). -/
structure ModuleNode where
  id : String
  source : String
  dependencies : List String
  dependents : List String
deriving DecidableEq, Repr

/-- `ModuleNode::new` (graph.rs, lines 19-26). -/
def ModuleNode.new (id source : String) : ModuleNode :=
  { id := id, source := source, dependencies := [], dependents := [] }

/-- `ModuleNode::add_dependency` (graph.rs, lines 29-31): set insertion. -/
def ModuleNode.add_dependency (m : ModuleNode) (module_id : String) : ModuleNode :=
  { m with dependencies := m.dependencies.insert module_id }

/-- `ModuleNode::add_dependent` (graph.rs, lines 34-36): set insertion. -/
def ModuleNode.add_dependent (m : ModuleNode) (module_id : String) : ModuleNode :=
  { m with dependents := m.dependents.insert module_id }

/-- `ModuleGraph` (graph.rs, lines 40-46). -/
structure ModuleGraph where
  modules : List (String × ModuleNode)
  entry_points : List String
deriving DecidableEq, Repr

/-- `ModuleGraph::new` (graph.rs, lines 49-54). -/
def ModuleGraph.new : ModuleGraph := { modules := [], entry_points := [] }

/-- The key set of the module map (`modules.keys()`). -/
def ModuleGraph.keys (g : ModuleGraph) : List String := g.modules.map (fun p => p.1)

/-- `ModuleGraph::add_module` (graph.rs, lines 57-59). -/
def ModuleGraph.add_module (g : ModuleGraph) (module : ModuleNode) : ModuleGraph :=
  { g with modules := mapInsert g.modules module.id module }

/-- `ModuleGraph::get_module` (graph.rs, lines 62-64). -/
def ModuleGraph.get_module (g : ModuleGraph) (id : String) : Option ModuleNode :=
  mapFind? g.modules id

/-- `ModuleGraph::add_dependency` (graph.rs, lines 72-82): record `to_id` in
`from_id`'s dependencies when `from_id` exists, and `from_id` in `to_id`'s
dependents when `to_id` exists. -/
def ModuleGraph.add_dependency (g : ModuleGraph) (from_id to_id : String) : ModuleGraph :=
  let g1 := { g with modules := mapModify g.modules from_id (fun m => m.add_dependency to_id) }
  { g1 with modules := mapModify g1.modules to_id (fun m => m.add_dependent from_id) }

/-- `ModuleGraph::add_entry_point` (graph.rs, lines 85-89): append if absent. -/
def ModuleGraph.add_entry_point (g : ModuleGraph) (module_id : String) : ModuleGraph :=
  if module_id ∈ g.entry_points then g
  else { g with entry_points := g.entry_points ++ [module_id] }

/-- One pop of the BFS work queue of `get_reachable_modules` (graph.rs,
lines 102-112): look the current id up; when present, push each not-yet-seen
dependency and add it to the reachable set.  `fuel` bounds the number of
pops; `get_reachable_modules` supplies enough fuel for every pop the Rust
loop can perform. -/
def bfsLoop (g : ModuleGraph) : Nat → List String → List String → List String
  | _, [], reachable => reachable
  | 0, _, reachable => reachable
  | fuel + 1, current_id :: queue, reachable =>
    match g.get_module current_id with
    | none => bfsLoop g fuel queue reachable
    | some module =>
      let (queue, reachable) := module.dependencies.foldl
        (fun (acc : List String × List String) dep_id =>
          if dep_id ∈ acc.2 then acc else (acc.1 ++ [dep_id], acc.2.insert dep_id))
        (queue, reachable)
      bfsLoop g fuel queue reachable

/-- Fuel bound for the BFS: each pop consumes a queue element, and elements
are enqueued at most once per entry point plus once per dependency edge. -/
def ModuleGraph.bfsFuel (g : ModuleGraph) : Nat :=
  g.entry_points.length + (g.modules.map (fun p => p.2.dependencies.length)).sum

/-- `ModuleGraph::get_reachable_modules` (graph.rs, lines 92-115): BFS from
the entry points (which are inserted into the reachable set unconditionally,
whether or not they are keys), following `dependencies` edges. -/
def ModuleGraph.get_reachable_modules (g : ModuleGraph) : List String :=
  let (queue, reachable) := g.entry_points.foldl
    (fun (acc : List String × List String) entry_id =>
      (acc.1 ++ [entry_id], acc.2.insert entry_id))
    ([], [])
  bfsLoop g g.bfsFuel queue reachable

/-- `ModuleGraph::get_unreachable_modules` (graph.rs, lines 118-125). -/
def ModuleGraph.get_unreachable_modules (g : ModuleGraph) : List String :=
  let reachable := g.get_reachable_modules
  g.keys.filter (fun id => !reachable.contains id)

/-! ## `TreeShaker` (webpack_graph/src/tree_shaker.rs) -/

/-- `TreeShaker::remove_module` (tree_shaker.rs, lines 23-48): remove the
binding, erase the removed id from the dependents of its dependencies and
from the dependencies of its dependents, and drop it from the entry list.
Returns the Rust `bool` alongside the updated graph. -/
def remove_module (g : ModuleGraph) (module_id : String) : Bool × ModuleGraph :=
  match mapFind? g.modules module_id with
  | none => (false, g)
  | some removed_module =>
    let modules := g.modules.filter (fun p => p.1 ≠ module_id)
    let modules := removed_module.dependencies.foldl
      (fun m dep_id =>
        mapModify m dep_id (fun dep => { dep with dependents := dep.dependents.erase module_id }))
      modules
    let modules := removed_module.dependents.foldl
      (fun m dependent_id =>
        mapModify m dependent_id
          (fun dep => { dep with dependencies := dep.dependencies.erase module_id }))
      modules
    (true, { modules := modules,
             entry_points := g.entry_points.filter (fun id => id ≠ module_id) })

/-- `TreeShaker::shake` (tree_shaker.rs, lines 56-62): remove every
unreachable module; return the removed ids. -/
def shake (g : ModuleGraph) : List String × ModuleGraph :=
  let unreachable_ids := g.get_unreachable_modules
  (unreachable_ids, unreachable_ids.foldl (fun acc module_id => (remove_module acc module_id).2) g)

/-! ## `WebpackBundleParser` (webpack_graph/src/parser.rs)

The external swc parse of the source text is out of scope; the embedding
starts from the parsed program (a list of top-level statements).  Numeric
literals carry the integral value of the f64 payload; `to_string` of such a
value prints without a fractional part, so the canonical id of `n` is
`toString n` followed by the source's `split('.')`. -/

/-- Canonicalisation of a numeric module id:
`num.value.to_string().split('.').next()` (parser.rs, lines 118 and 203). -/
def canonicalNumId (n : Int) : String :=
  match splitDot (toString n) with
  | [] => ""
  | s :: _ => s

/-- `WebpackVisitor::extract_webpack_require_call` (parser.rs, lines
195-210): the callee must be the identifier `__webpack_require__` and the
first argument a numeric literal; every other shape (including a string
literal first argument) yields nothing. -/
def extract_webpack_require_call (call : Expr) : Option String :=
  match call with
  | .call _ (.ident _ sym) args =>
    if sym = "__webpack_require__" then
      match args with
      | .numLit _ n :: _ => some (canonicalNumId n)
      | _ => none
    else none
  | _ => none

mutual
/-- `WebpackVisitor::extract_require_calls_from_expr` (parser.rs, lines
150-175): walk parens, function bodies, and call expressions (recording the
call's own id first-occurrence-deduplicated, then walking the arguments);
every other expression kind is ignored. -/
def extract_require_calls_from_expr (e : Expr) (dependencies : List String) : List String :=
  match e with
  | .paren _ inner => extract_require_calls_from_expr inner dependencies
  | .fnExpr _ _ body => extractRequireCallsFromStmts body dependencies
  | .call sp callee args =>
    let dependencies :=
      match extract_webpack_require_call (.call sp callee args) with
      | some module_id =>
        if module_id ∈ dependencies then dependencies else dependencies ++ [module_id]
      | none => dependencies
    extractRequireCallsFromArgs args dependencies
  | _ => dependencies

def extractRequireCallsFromArgs (args : List Expr) (dependencies : List String) : List String :=
  match args with
  | [] => dependencies
  | arg :: rest => extractRequireCallsFromArgs rest (extract_require_calls_from_expr arg dependencies)

/-- `WebpackVisitor::extract_require_calls_from_stmt` (parser.rs, lines
178-192): expression statements and variable-declarator initialisers only. -/
def extract_require_calls_from_stmt (stmt : Stmt) (dependencies : List String) : List String :=
  match stmt with
  | .exprStmt _ e => extract_require_calls_from_expr e dependencies
  | .varDecl _ decls => extractRequireCallsFromDecls decls dependencies
  | _ => dependencies

def extractRequireCallsFromStmts (stmts : List Stmt) (dependencies : List String) : List String :=
  match stmts with
  | [] => dependencies
  | s :: rest => extractRequireCallsFromStmts rest (extract_require_calls_from_stmt s dependencies)

def extractRequireCallsFromDecls (decls : List VarDeclarator) (dependencies : List String) :
    List String :=
  match decls with
  | [] => dependencies
  | .mk _ init :: rest =>
    let dependencies :=
      match init with
      | some e => extract_require_calls_from_expr e dependencies
      | none => dependencies
    extractRequireCallsFromDecls rest dependencies
end

/-- The synthesised module source of `extract_function_source` (parser.rs,
lines 141-146): `format!("function() \x7b {} \x7d", deps.join("; "))` where each
dependency renders as `__webpack_require__(id)`. -/
def joinSep (sep : String) : List String → String
  | [] => ""
  | [s] => s
  | s :: rest => s ++ sep ++ joinSep sep rest

def mkFunctionSource (dependencies : List String) : String :=
  let deps_string :=
    joinSep "; " (dependencies.map (fun dep => "__webpack_require__(" ++ dep ++ ")"))
  "function() \x7b " ++ deps_string ++ " \x7d"

/-- `WebpackVisitor::extract_function_source` (parser.rs, lines 135-147). -/
def extract_function_source (e : Expr) : Option String :=
  some (mkFunctionSource (extract_require_calls_from_expr e []))

/-- `WebpackVisitor::extract_module_content` (parser.rs, lines 113-132):
canonicalise the property key and synthesise the module source. -/
def extract_module_content (prop : ObjProp) : Option (String × String) :=
  match prop with
  | .keyValue key value =>
    let module_id? : Option String :=
      match key with
      | .num n => some (canonicalNumId n)
      | .str s => some s
      | .identKey name => some name
    match module_id? with
    | none => none
    | some module_id =>
      let module_source :=
        match extract_function_source value with
        | some src => src
        | none => "/* Module " ++ module_id ++ " */"
      some (module_id, module_source)

/-- The pattern of the dependency-extraction regex
`__webpack_require__\((\d+)\)` up to its capture group. -/
def requirePat : List Char := "__webpack_require__(".toList

/-- Left-to-right scan for non-overlapping matches of
`__webpack_require__\((\d+)\)`, collecting the captured digit strings; this
is the behaviour of `Regex::captures_iter` for that pattern.  The fuel
argument makes the recursion structural; every recursive call strictly
shortens the character list, so fuel equal to the initial length never runs
out. -/
def scanRequiresAux : Nat → List Char → List String
  | 0, _ => []
  | _, [] => []
  | fuel + 1, c :: rest =>
    if requirePat.isPrefixOf (c :: rest) then
      let after := (c :: rest).drop requirePat.length
      let digits := after.takeWhile Char.isDigit
      if digits ≠ [] ∧ (after.drop digits.length).head? = some ')' then
        String.mk digits ::
          scanRequiresAux fuel ((c :: rest).drop (requirePat.length + digits.length + 1))
      else scanRequiresAux fuel rest
    else scanRequiresAux fuel rest

/-- `WebpackBundleParser::extract_dependencies_from_source` (parser.rs,
lines 87-93): regex extraction of `__webpack_require__(<digits>)` calls. -/
def extract_dependencies_from_source (source : String) : List String :=
  scanRequiresAux source.toList.length source.toList

/-- `WebpackGraphError` (webpack_graph/src/error.rs); the IO and JSON
variants carry external payloads and do not occur in the embedded paths. -/
inductive WebpackGraphError where
  | ParseError (msg : String)
  | InvalidBundleFormat (msg : String)
  | ModuleNotFound (msg : String)
  | ModuleExtractionError (msg : String)
deriving DecidableEq, Repr

/-- `WebpackVisitor` state (parser.rs, lines 97-101). -/
structure WebpackVisitor where
  webpack_modules : List (String × String)
  entry_points : List String
  webpack_modules_span : Option Span
deriving DecidableEq, Repr

/-- `WebpackVisitor::new` (parser.rs, lines 104-110). -/
def WebpackVisitor.new : WebpackVisitor :=
  { webpack_modules := [], entry_points := [], webpack_modules_span := none }

/-- Module extraction from a right-hand side that is an object literal,
directly or wrapped in parentheses (parser.rs, lines 241-259 and 300-321). -/
def extractModulesFromRhs (st : WebpackVisitor) (e : Expr) : WebpackVisitor :=
  let obj? : Option (List ObjProp) :=
    match e with
    | .object _ props => some props
    | .paren _ (.object _ props) => some props
    | _ => none
  match obj? with
  | some props =>
    props.foldl
      (fun st prop =>
        match extract_module_content prop with
        | some m =>
          { st with webpack_modules := mapInsert st.webpack_modules m.1 m.2 }
        | none => st)
      st
  | none => st

/-- `WebpackVisitor::process_var_declaration` (parser.rs, lines 292-325):
when a declarator binds `__webpack_modules__`, record the declaration's span
and extract the modules from its initialiser. -/
def process_var_declaration (st : WebpackVisitor) (node_span : Span)
    (decls : List VarDeclarator) : WebpackVisitor :=
  decls.foldl
    (fun st d =>
      match d with
      | .mk name init =>
        if name = "__webpack_modules__" then
          let st := { st with webpack_modules_span := some node_span }
          match init with
          | some initE => extractModulesFromRhs st initE
          | none => st
        else st)
    st

/-- The entry-recording body of `WebpackVisitor::visit_call_expr`
(parser.rs, lines 268-287): when the recorded modules-table span does not
contain the call, a recognised load call appends its id to the entry list
if absent. -/
def record_entry_point (st : WebpackVisitor) (node : Expr) : WebpackVisitor :=
  let inside_webpack_modules :=
    match st.webpack_modules_span with
    | some modules_span => modules_span.spanContains node.span
    | none => false
  if !inside_webpack_modules then
    match extract_webpack_require_call node with
    | some module_id =>
      if module_id ∈ st.entry_points then st
      else { st with entry_points := st.entry_points ++ [module_id] }
    | none => st
  else st

mutual
/-- The `Visit` traversal of `WebpackVisitor` over expressions: the
overridden `visit_assign_expr` and `visit_call_expr` handlers run before
their children are visited. -/
def wVisitExpr (st : WebpackVisitor) (e : Expr) : WebpackVisitor :=
  match e with
  | .call sp callee args =>
    let st := record_entry_point st (.call sp callee args)
    let st := wVisitExpr st callee
    wVisitExprList st args
  | .assign sp target rhs =>
    let st :=
      if target = "__webpack_modules__" then
        let st := { st with webpack_modules_span := some sp }
        extractModulesFromRhs st rhs
      else st
    wVisitExpr st rhs
  | .paren _ inner => wVisitExpr st inner
  | .fnExpr _ _ body => wVisitStmtList st body
  | .array _ elems => wVisitExprList st elems
  | .object _ props => wVisitPropList st props
  | _ => st

def wVisitExprList (st : WebpackVisitor) : List Expr → WebpackVisitor
  | [] => st
  | e :: es => wVisitExprList (wVisitExpr st e) es

def wVisitPropList (st : WebpackVisitor) : List ObjProp → WebpackVisitor
  | [] => st
  | .keyValue _ value :: rest => wVisitPropList (wVisitExpr st value) rest

/-- The `Visit` traversal over statements: on a variable-declaration
statement both the overridden `visit_decl` and the overridden
`visit_var_decl` fire (the processing runs twice, idempotently, as in the
source) before the declarators' initialisers are visited. -/
def wVisitStmt (st : WebpackVisitor) (s : Stmt) : WebpackVisitor :=
  match s with
  | .varDecl sp decls =>
    let st := process_var_declaration st sp decls
    let st := process_var_declaration st sp decls
    wVisitDeclList st decls
  | .exprStmt _ e => wVisitExpr st e
  | .block _ stmts => wVisitStmtList st stmts
  | .empty _ => st

def wVisitStmtList (st : WebpackVisitor) : List Stmt → WebpackVisitor
  | [] => st
  | s :: rest => wVisitStmtList (wVisitStmt st s) rest

def wVisitDeclList (st : WebpackVisitor) : List VarDeclarator → WebpackVisitor
  | [] => st
  | .mk _ init :: rest =>
    let st :=
      match init with
      | some e => wVisitExpr st e
      | none => st
    wVisitDeclList st rest
end

/-- Graph-building stage of `parse_bundle` (parser.rs, lines 49-61): one
node per visitor module, with its regex-extracted dependencies. -/
def buildModulesStage (ms : List (String × String)) : ModuleGraph :=
  ms.foldl
    (fun g m =>
      let dependencies := extract_dependencies_from_source m.2
      let module_node :=
        dependencies.foldl (fun node dep_id => node.add_dependency dep_id)
          (ModuleNode.new m.1 m.2)
      g.add_module module_node)
    ModuleGraph.new

/-- Edge stage of `parse_bundle` (parser.rs, lines 64-68): for each module
of a snapshot of the map, `add_dependency` for each of its dependencies. -/
def buildEdgesStage (g : ModuleGraph) : ModuleGraph :=
  g.modules.foldl
    (fun g2 p => p.2.dependencies.foldl (fun g3 dep_id => g3.add_dependency p.1 dep_id) g2)
    g

/-- Entry stage of `parse_bundle` (parser.rs, lines 71-75): record each
visitor entry whose id is a key of the map. -/
def addEntriesStage (entries : List String) (g : ModuleGraph) : ModuleGraph :=
  entries.foldl
    (fun g2 entry_id =>
      if (mapFind? g2.modules entry_id).isSome then g2.add_entry_point entry_id else g2)
    g

/-- `WebpackBundleParser::parse_bundle` (parser.rs, lines 21-84), starting
from the parsed program: run the visitor; fail when no modules table was
found; build the graph in the three stages above; fail when no entry point
survives. -/
def parse_bundle (program : List Stmt) : Except WebpackGraphError ModuleGraph :=
  let visitor := wVisitStmtList WebpackVisitor.new program
  if visitor.webpack_modules.isEmpty then
    .error (.InvalidBundleFormat "No __webpack_modules__ found in bundle")
  else
    let graph := buildModulesStage visitor.webpack_modules
    let graph := buildEdgesStage graph
    let graph := addEntriesStage visitor.entry_points graph
    if graph.entry_points.isEmpty then
      .error (.InvalidBundleFormat
        "No entry points found - __webpack_require__ calls must exist outside __webpack_modules__")
    else .ok graph

/-! ## Invariants and concrete fixtures -/

/-- Bidirectional edge consistency of a module graph: for all present
modules `u` and `v`, `u ∈ deps(v) ⇔ v ∈ dependents(u)`. -/
def BidirConsistent (g : ModuleGraph) : Prop :=
  ∀ u nu v nv, mapFind? g.modules u = some nu → mapFind? g.modules v = some nv →
    (u ∈ nv.dependencies ↔ v ∈ nu.dependents)

/-- A sequence of `TreeShaker::remove_module` calls, keeping the graph. -/
def applyRemovals (g : ModuleGraph) (ops : List String) : ModuleGraph :=
  ops.foldl (fun acc module_id => (remove_module acc module_id).2) g

/-- Empty JSON object metadata. -/
def exMeta0 : Json := .obj []

/-- Metadata binding `x` to a non-empty string. -/
def exMeta3 : Json := .obj [("x", .str "y")]

/-- A well-formed `if` annotation with a condition attribute. -/
def exIf4 : MacroNode := ⟨⟨0, 0⟩, "ns", "if", [("condition", "a")]⟩

/-- A stray `endif` annotation. -/
def exEndif9 : MacroNode := ⟨⟨0, 0⟩, "ns", "endif", []⟩

/-- A one-module graph used to exercise `remove_module` on an absent id. -/
def exG10 : ModuleGraph :=
  { modules := [("1", ModuleNode.new "1" "src")], entry_points := ["1"] }

/-- Transformer fixture: one removal range, no replacements. -/
def exT2 : RemoveReplaceTransformer := ⟨[⟨10, 20⟩], []⟩

/-- A module item wholly inside `exT2`'s removal range. -/
def exItem2 : ModuleItem := .stmt (.exprStmt ⟨12, 18⟩ (.ident ⟨12, 17⟩ "x"))

/-- Transformer fixture: a removal range covering everything and a
replacement keyed at position 5. -/
def exT7 : RemoveReplaceTransformer := ⟨[⟨0, 100⟩], [(5, .strLit DUMMY_SP "replaced")]⟩

/-- An expression starting at the replace key 5 and contained in the
removal range of `exT7`. -/
def exE7 : Expr := .ident ⟨5, 8⟩ "x"

/-- A concrete bundle: module `100` requires the *absent* module `200`, and
the single entry call loads `100`.  (The [25,57) object span lies inside the
[0,60) declaration span; the entry call at [61,84) lies outside it.) -/
def exProg1 : List Stmt :=
  [.varDecl ⟨0, 60⟩ [.mk "__webpack_modules__" (some (.paren ⟨24, 58⟩ (.object ⟨25, 57⟩
    [.keyValue (.num 100) (.fnExpr ⟨30, 55⟩ ["m", "e", "r"]
      [.exprStmt ⟨40, 53⟩ (.call ⟨40, 52⟩ (.ident ⟨40, 48⟩ "__webpack_require__")
        [.numLit ⟨49, 51⟩ 200])])])))],
   .exprStmt ⟨61, 85⟩ (.call ⟨61, 84⟩ (.ident ⟨61, 80⟩ "__webpack_require__")
     [.numLit ⟨81, 83⟩ 100])]

/-- The graph `parse_bundle` produces for `exProg1`: one module with a
dangling dependency edge to the absent `200`. -/
def exG1 : ModuleGraph :=
  { modules := [("100",
      { id := "100", source := "function() \x7b __webpack_require__(200) \x7d",
        dependencies := ["200"], dependents := [] })],
    entry_points := ["100"] }

/-- A program that is not a bundle: no modules table at all. -/
def exProg5a : List Stmt := [.exprStmt ⟨0, 5⟩ (.numLit ⟨1, 2⟩ 1)]

/-- A bundle with a modules table but no entry-point call. -/
def exProg5b : List Stmt :=
  [.varDecl ⟨0, 50⟩ [.mk "__webpack_modules__" (some (.object ⟨24, 48⟩
    [.keyValue (.num 1) (.fnExpr ⟨30, 46⟩ ["m", "e", "r"] [])]))]]

/-- The entry id contributed by one call node under `visit_call_expr`'s
guard: nothing when the recorded modules-table span contains the node, and
otherwise the result of `extract_webpack_require_call`. -/
def entryCandidate (msp : Option Span) (c : Expr) : Option String :=
  match msp with
  | some modules_span =>
    if modules_span.spanContains c.span then none else extract_webpack_require_call c
  | none => extract_webpack_require_call c

/-- First-occurrence deduplication against an already-seen list: the order
in which `visit_call_expr` appends new entry ids. -/
def dedupKeepFirst (seen : List String) : List String → List String
  | [] => []
  | x :: xs =>
    if x ∈ seen then dedupKeepFirst seen xs else x :: dedupKeepFirst (seen ++ [x]) xs

/-- A top-level load call whose argument is a *string* literal. -/
def exProg8 : List Stmt :=
  [.exprStmt ⟨0, 28⟩ (.call ⟨0, 27⟩ (.ident ⟨0, 19⟩ "__webpack_require__")
    [.strLit ⟨20, 25⟩ "100"])]

/-! # Theorems -/

/-! ## Association-map lemmas -/

theorem mapFind?_eq_none_iff {β : Type} (m : List (String × β)) (key : String) :
    mapFind? m key = none ↔ key ∉ m.map (fun p => p.1) := by
  induction m with
  | nil => simp [mapFind?]
  | cons p rest ih =>
    obtain ⟨k, v⟩ := p
    by_cases h : k = key
    · subst h
      simp [mapFind?]
    · simp only [mapFind?, if_neg h, List.map_cons, List.mem_cons, ih]
      constructor
      · intro hk hor
        rcases hor with h1 | h2
        · exact h h1.symm
        · exact hk h2
      · intro hall h2
        exact hall (Or.inr h2)

/-! ## C3: metadata evaluation -/

/-- C3 counterexample: on metadata `{"x": "y"}` the spec's truthiness table
makes `query("x")` truthy (non-empty string) but `evaluate_bool` returns
`false`, so `evaluate(path) = truthy(query(path))` fails. -/
theorem C3_counterexample :
    evaluate_bool exMeta3 "x" ≠ specTruthy (query exMeta3 "x") ∧
    evaluate_bool exMeta3 "x" = false ∧ specTruthy (query exMeta3 "x") = true := by
  refine ⟨?_, rfl, rfl⟩
  decide

/-- C3 (amended): `evaluate_bool` returns the queried value itself when that
value is a boolean and `false` in every other case; equivalently it is
`true` exactly when the query yields the JSON value `true`. -/
theorem C3_evaluate_bool_characterisation (v : Json) (path : String) :
    evaluate_bool v path = true ↔ query v path = some (Json.bool true) := by
  unfold evaluate_bool
  cases h : query v path with
  | none => simp
  | some w => cases w <;> simp

/-! ## C10: removing an absent module id -/

/-- C10: when the id is not a key of the module map, `remove_module`
returns `false` and leaves the graph entirely unchanged. -/
theorem C10_remove_module_absent (g : ModuleGraph) (module_id : String)
    (h : module_id ∉ g.keys) : remove_module g module_id = (false, g) := by
  unfold ModuleGraph.keys at h
  unfold remove_module
  rw [(mapFind?_eq_none_iff g.modules module_id).mpr h]

/-- C10 witness: removing the absent id `"2"` from a concrete one-module
graph returns `false` and the untouched graph. -/
theorem C10_witness : remove_module exG10 "2" = (false, exG10) :=
  C10_remove_module_absent exG10 "2" (by decide)

/-! ## C4: unmatched `if` directives at end of input -/

theorem parse_all_ifs (ms : List (Nat × MacroNode))
    (h : ∀ m ∈ ms, m.2.directive = "if" ∧ ∃ c, List.lookup "condition" m.2.attrs = some c) :
    ∀ dirs stack, ∃ stack',
      ms.foldlM parseDirectivesStep (dirs, stack) = Except.ok (dirs, stack') := by
  induction ms with
  | nil => intro dirs stack; exact ⟨stack, rfl⟩
  | cons m rest ih =>
    intro dirs stack
    obtain ⟨hdir, c, hc⟩ := h m (List.mem_cons_self _ _)
    obtain ⟨p, mn⟩ := m
    obtain ⟨stack', hs⟩ := ih (fun x hx => h x (List.mem_cons_of_mem _ hx)) dirs ((p, c) :: stack)
    refine ⟨stack', ?_⟩
    rw [List.foldlM_cons]
    have hdir' : mn.directive = "if" := hdir
    have hc' : List.lookup "condition" mn.attrs = some c := hc
    have hstep : parseDirectivesStep (dirs, stack) (p, mn) = .ok (dirs, (p, c) :: stack) := by
      simp only [parseDirectivesStep]
      rw [hdir', hc']
      rfl
    rw [hstep]
    exact hs

/-- C4 counterexample: a single well-formed `if` annotation with no matching
`endif` leaves the stack non-empty at end of input, yet the scanner
completes successfully (with no directives at all) instead of failing with
an unpaired-directive error. -/
theorem C4_counterexample :
    condition_transform exMeta0 [(5, exIf4)] =
      .ok { remove_list := [], replace_expr_list := [] } := rfl

/-- C4 (amended): when the annotation list is exhausted while the stack of
open `if` directives is non-empty — in particular for a non-empty input all
of whose annotations are well-formed `if`s — the scanner completes
successfully and the unmatched `if`s contribute no directives; only a stray
`endif` aborts with the unpaired-directive panic. -/
theorem C4_unmatched_ifs_succeed (meta_data : Json) (macros : List (Nat × MacroNode))
    (_hne : macros ≠ [])
    (hif : ∀ m ∈ macros, m.2.directive = "if" ∧
      ∃ c, List.lookup "condition" m.2.attrs = some c) :
    condition_transform meta_data macros = .ok { remove_list := [], replace_expr_list := [] } := by
  have hsorted : ∀ m ∈ sortMacros macros, m.2.directive = "if" ∧
      ∃ c, List.lookup "condition" m.2.attrs = some c := by
    intro m hm
    exact hif m ((List.perm_insertionSort _ macros).mem_iff.mp hm)
  obtain ⟨stack', hs⟩ := parse_all_ifs (sortMacros macros) hsorted [] []
  simp only [condition_transform]
  rw [hs]
  rfl

/-- C4 witness: the amended statement at the concrete one-`if` input. -/
theorem C4_witness :
    condition_transform exMeta0 [(5, exIf4)] =
      .ok { remove_list := [], replace_expr_list := [] } :=
  C4_unmatched_ifs_succeed exMeta0 [(5, exIf4)] (by simp)
    (by
      intro m hm
      simp only [List.mem_singleton] at hm
      subst hm
      exact ⟨rfl, "a", rfl⟩)

/-! ## C9: failure disposition of the core -/

/-- C9 counterexample: the stray-`endif` failure aborts with the fixed
message `"Unpaired :if directive"` regardless of the directive's position
(7 and 99 produce the identical error value), so the failure carries
neither the source position nor the failing path, and it is a panic
(`expect`) rather than a returned tagged error: `condition_transform`'s
Rust type has no error channel at all. -/
theorem C9_counterexample :
    condition_transform exMeta0 [(7, exEndif9)] = .error "Unpaired :if directive" ∧
    condition_transform exMeta0 [(99, exEndif9)] = .error "Unpaired :if directive" :=
  ⟨rfl, rfl⟩

/-- C9 (amended): each core failure — stray `endif`, missing `condition`
attribute, missing `value` attribute, and a `define-inline` where neither
the queried value nor a default resolves — aborts the pass via an `expect`
panic carrying a fixed message that names the failing directive kind but
not the position or path; no tagged error value is returned to the
caller. -/
theorem C9_failures_panic :
    (∀ (meta_data : Json) (p : Nat) (sp : Span) (ns : String) (attrs : List (String × String)),
      condition_transform meta_data [(p, ⟨sp, ns, "endif", attrs⟩)] =
        .error "Unpaired :if directive") ∧
    (∀ (meta_data : Json) (p : Nat) (sp : Span) (ns : String) (attrs : List (String × String)),
      List.lookup "condition" attrs = none →
      condition_transform meta_data [(p, ⟨sp, ns, "if", attrs⟩)] =
        .error "No `condition` attr in if directive") ∧
    (∀ (meta_data : Json) (p : Nat) (sp : Span) (ns : String) (attrs : List (String × String)),
      List.lookup "value" attrs = none →
      condition_transform meta_data [(p, ⟨sp, ns, "define-inline", attrs⟩)] =
        .error "No `value` attr in define-inline directive") ∧
    (∀ (meta_data : Json) (p : Nat) (sp : Span) (ns : String) (attrs : List (String × String))
      (vpath : String),
      List.lookup "value" attrs = some vpath →
      query meta_data vpath = none →
      List.lookup "default" attrs = none →
      condition_transform meta_data [(p, ⟨sp, ns, "define-inline", attrs⟩)] =
        .error "`value` or `default` is invalid") := by
  refine ⟨fun _ _ _ _ _ => rfl, ?_, ?_, ?_⟩
  · intro meta_data p sp ns attrs h
    simp [condition_transform, sortMacros, parseDirectivesStep, h]
    rfl
  · intro meta_data p sp ns attrs h
    simp [condition_transform, sortMacros, parseDirectivesStep, h]
    rfl
  · intro meta_data p sp ns attrs vpath hv hq hd
    have h2 : List.foldlM (evalDirectivesStep meta_data)
        (([] : List Span), ([] : List (Nat × Expr)))
        [Directive.defineInline ⟨p, vpath, none⟩] =
        .error "`value` or `default` is invalid" := by
      simp [evalDirectivesStep, hq]
    have h3 : ((fun a : List Span × List (Nat × Expr) =>
        ({ remove_list := a.1, replace_expr_list := a.2 } : RemoveReplaceTransformer)) <$>
        List.foldlM (evalDirectivesStep meta_data)
          (([] : List Span), ([] : List (Nat × Expr)))
          [Directive.defineInline ⟨p, vpath, none⟩]) =
        Except.error "`value` or `default` is invalid" := by
      rw [h2]; rfl
    simp [condition_transform, sortMacros, parseDirectivesStep, hv, hd]
    exact h3

/-- C9 witness: the four failure modes at concrete inputs. -/
theorem C9_witness :
    condition_transform exMeta0 [(3, ⟨⟨0, 0⟩, "ns", "endif", [("k", "v")]⟩)] =
      .error "Unpaired :if directive" ∧
    condition_transform exMeta0 [(3, ⟨⟨0, 0⟩, "ns", "if", []⟩)] =
      .error "No `condition` attr in if directive" ∧
    condition_transform exMeta0 [(3, ⟨⟨0, 0⟩, "ns", "define-inline", []⟩)] =
      .error "No `value` attr in define-inline directive" ∧
    condition_transform exMeta0 [(3, ⟨⟨0, 0⟩, "ns", "define-inline", [("value", "v")]⟩)] =
      .error "`value` or `default` is invalid" :=
  ⟨C9_failures_panic.1 exMeta0 3 ⟨0, 0⟩ "ns" [("k", "v")],
   C9_failures_panic.2.1 exMeta0 3 ⟨0, 0⟩ "ns" [] rfl,
   C9_failures_panic.2.2.1 exMeta0 3 ⟨0, 0⟩ "ns" [] rfl,
   C9_failures_panic.2.2.2 exMeta0 3 ⟨0, 0⟩ "ns" [("value", "v")] "v" rfl rfl rfl⟩

/-! ## Single-step behaviour of the remove/replace visitor -/

theorem visit_mut_expr_eq_rules (t : RemoveReplaceTransformer) (node : Expr) :
    ∃ k, visit_mut_expr t node = exprRules t node k := by
  cases node <;> exact ⟨_, rfl⟩

theorem visit_mut_stmt_eq_rules (t : RemoveReplaceTransformer) (node : Stmt) :
    ∃ k, visit_mut_stmt t node = stmtRules t node k := by
  cases node <;> exact ⟨_, by unfold visit_mut_stmt; rfl⟩

theorem visit_mut_module_item_eq_rules (t : RemoveReplaceTransformer) (node : ModuleItem) :
    ∃ k, visit_mut_module_item t node = itemRules t node k := by
  cases node <;> exact ⟨_, by unfold visit_mut_module_item; rfl⟩

theorem visit_mut_expr_replace (t : RemoveReplaceTransformer) (node : Expr) (pr : Nat × Expr)
    (h : t.replace_expr_list.find? (fun q => q.1 == node.spanLo) = some pr) :
    visit_mut_expr t node = pr.2 := by
  obtain ⟨k, hk⟩ := visit_mut_expr_eq_rules t node
  rw [hk]
  unfold exprRules
  rw [h]

theorem visit_mut_expr_removed (t : RemoveReplaceTransformer) (node : Expr)
    (hrep : t.replace_expr_list.find? (fun q => q.1 == node.spanLo) = none)
    (hrem : ∃ r ∈ t.remove_list, r.spanContains node.span = true) :
    visit_mut_expr t node = .nullLit DUMMY_SP := by
  obtain ⟨r, hr, hc⟩ := hrem
  have hany : t.remove_list.any (fun remove => remove.spanContains node.span) = true :=
    List.any_eq_true.mpr ⟨r, hr, hc⟩
  obtain ⟨k, hk⟩ := visit_mut_expr_eq_rules t node
  rw [hk]
  unfold exprRules
  rw [hrep, hany]
  rfl

theorem visit_mut_stmt_removed (t : RemoveReplaceTransformer) (node : Stmt)
    (hrem : ∃ r ∈ t.remove_list, r.spanContains node.span = true) :
    visit_mut_stmt t node = .empty DUMMY_SP := by
  obtain ⟨r, hr, hc⟩ := hrem
  have hany : t.remove_list.any (fun remove => remove.spanContains node.span) = true :=
    List.any_eq_true.mpr ⟨r, hr, hc⟩
  obtain ⟨k, hk⟩ := visit_mut_stmt_eq_rules t node
  rw [hk]
  unfold stmtRules
  rw [hany]
  rfl

theorem visit_mut_module_item_removed (t : RemoveReplaceTransformer) (node : ModuleItem)
    (hrem : ∃ r ∈ t.remove_list, r.spanContains node.span = true) :
    visit_mut_module_item t node = .stmt (.empty DUMMY_SP) := by
  obtain ⟨r, hr, hc⟩ := hrem
  have hany : t.remove_list.any (fun remove => remove.spanContains node.span) = true :=
    List.any_eq_true.mpr ⟨r, hr, hc⟩
  obtain ⟨k, hk⟩ := visit_mut_module_item_eq_rules t node
  rw [hk]
  unfold itemRules
  rw [hany]
  rfl

/-! ## C2: deletion policy for module items, statements and expressions -/

/-- C2 counterexample: a module item wholly inside a removal range is *not*
removed from its enclosing sequence — it is replaced in place by the empty
statement placeholder, and the sequence keeps its length. -/
theorem C2_counterexample :
    visit_mut_module_items exT2 [exItem2] = [ModuleItem.stmt (Stmt.empty DUMMY_SP)] ∧
    (visit_mut_module_items exT2 [exItem2]).length = 1 := ⟨rfl, rfl⟩

/-- C2 (amended): a module item or statement wholly inside a range of the
remove-list is replaced in place by an empty statement with a dummy span
(the enclosing sequence keeps its length, never shrinking), while an
expression wholly inside such a range — and not matched by the
replace-list, which is consulted first — is replaced by the null literal. -/
theorem C2_deletion_policy :
    (∀ (t : RemoveReplaceTransformer) (node : ModuleItem),
      (∃ r ∈ t.remove_list, r.spanContains node.span = true) →
      visit_mut_module_item t node = .stmt (.empty DUMMY_SP)) ∧
    (∀ (t : RemoveReplaceTransformer) (node : Stmt),
      (∃ r ∈ t.remove_list, r.spanContains node.span = true) →
      visit_mut_stmt t node = .empty DUMMY_SP) ∧
    (∀ (t : RemoveReplaceTransformer) (items : List ModuleItem),
      (visit_mut_module_items t items).length = items.length) ∧
    (∀ (t : RemoveReplaceTransformer) (node : Expr),
      t.replace_expr_list.find? (fun q => q.1 == node.spanLo) = none →
      (∃ r ∈ t.remove_list, r.spanContains node.span = true) →
      visit_mut_expr t node = .nullLit DUMMY_SP) :=
  ⟨visit_mut_module_item_removed, visit_mut_stmt_removed,
   fun t items => List.length_map items (visit_mut_module_item t),
   visit_mut_expr_removed⟩

/-- C2 witness: the amended deletion policy at concrete nodes. -/
theorem C2_witness :
    visit_mut_module_item exT2 exItem2 = .stmt (.empty DUMMY_SP) ∧
    visit_mut_stmt exT2 (.exprStmt ⟨12, 18⟩ (.ident ⟨12, 17⟩ "x")) = .empty DUMMY_SP ∧
    (visit_mut_module_items exT2 [exItem2]).length = 1 ∧
    visit_mut_expr exT2 (.ident ⟨12, 17⟩ "x") = .nullLit DUMMY_SP :=
  ⟨C2_deletion_policy.1 exT2 exItem2 ⟨⟨10, 20⟩, by decide, by decide⟩,
   C2_deletion_policy.2.1 exT2 (.exprStmt ⟨12, 18⟩ (.ident ⟨12, 17⟩ "x"))
     ⟨⟨10, 20⟩, by decide, by decide⟩,
   C2_deletion_policy.2.2.1 exT2 [exItem2],
   C2_deletion_policy.2.2.2 exT2 (.ident ⟨12, 17⟩ "x") rfl ⟨⟨10, 20⟩, by decide, by decide⟩⟩

/-! ## C7: rule order at expression nodes -/

/-- C7 counterexample: an expression whose start position equals a
replace-list key *and* which lies wholly inside a remove-list range is
replaced, not deleted — the replace list is consulted first, contrary to
the claimed removal-before-replacement order. -/
theorem C7_counterexample :
    visit_mut_expr exT7 exE7 = .strLit DUMMY_SP "replaced" ∧
    visit_mut_expr exT7 exE7 ≠ .nullLit DUMMY_SP ∧
    (∃ r ∈ exT7.remove_list, r.spanContains exE7.span = true) ∧
    exT7.replace_expr_list.find? (fun q => q.1 == exE7.spanLo) =
      some (5, .strLit DUMMY_SP "replaced") := by
  refine ⟨rfl, ?_, ⟨⟨0, 100⟩, by decide, by decide⟩, rfl⟩
  intro h
  rw [show visit_mut_expr exT7 exE7 = Expr.strLit DUMMY_SP "replaced" from rfl] at h
  exact Expr.noConfusion h

/-- C7 (amended): at an expression node the transformer's rules fire with
replacement *before* removal and are mutually exclusive: a node whose start
position matches the replace-list is replaced by the mapped expression and
is never examined for removal (even when wholly contained in a remove-list
range), while a node with no replace-list match that is wholly contained in
a remove-list range becomes the null literal without being descended. -/
theorem C7_rule_order :
    (∀ (t : RemoveReplaceTransformer) (node : Expr) (pr : Nat × Expr),
      t.replace_expr_list.find? (fun q => q.1 == node.spanLo) = some pr →
      visit_mut_expr t node = pr.2) ∧
    (∀ (t : RemoveReplaceTransformer) (node : Expr),
      t.replace_expr_list.find? (fun q => q.1 == node.spanLo) = none →
      (∃ r ∈ t.remove_list, r.spanContains node.span = true) →
      visit_mut_expr t node = .nullLit DUMMY_SP) :=
  ⟨visit_mut_expr_replace, visit_mut_expr_removed⟩

/-- C7 witness: both rules at concrete expressions. -/
theorem C7_witness :
    visit_mut_expr exT7 exE7 = .strLit DUMMY_SP "replaced" ∧
    visit_mut_expr exT7 (.ident ⟨7, 9⟩ "y") = .nullLit DUMMY_SP :=
  ⟨C7_rule_order.1 exT7 exE7 (5, .strLit DUMMY_SP "replaced") rfl,
   C7_rule_order.2 exT7 (.ident ⟨7, 9⟩ "y") rfl ⟨⟨0, 100⟩, by decide, by decide⟩⟩

/-! ## Shape lemmas for graph construction -/

theorem mapModify_keys {β : Type} (m : List (String × β)) (k : String) (f : β → β) :
    (mapModify m k f).map (fun p => p.1) = m.map (fun p => p.1) := by
  induction m with
  | nil => rfl
  | cons p rest ih =>
    obtain ⟨k', v⟩ := p
    by_cases h : k' = k
    · simp [mapModify, h]
    · simp [mapModify, h, ih]

theorem add_dependency_keys (g : ModuleGraph) (a b : String) :
    (g.add_dependency a b).modules.map (fun p => p.1) = g.modules.map (fun p => p.1) := by
  unfold ModuleGraph.add_dependency
  simp [mapModify_keys]

theorem add_dependency_entry_points (g : ModuleGraph) (a b : String) :
    (g.add_dependency a b).entry_points = g.entry_points := rfl

theorem inner_edge_fold_keys (ds : List String) (a : String) :
    ∀ g : ModuleGraph,
      ((ds.foldl (fun g2 dep_id => g2.add_dependency a dep_id) g).modules).map (fun p => p.1) =
        g.modules.map (fun p => p.1) := by
  induction ds with
  | nil => intro g; rfl
  | cons d rest ih =>
    intro g
    rw [List.foldl_cons, ih, add_dependency_keys]

theorem inner_edge_fold_entry_points (ds : List String) (a : String) :
    ∀ g : ModuleGraph,
      (ds.foldl (fun g2 dep_id => g2.add_dependency a dep_id) g).entry_points =
        g.entry_points := by
  induction ds with
  | nil => intro g; rfl
  | cons d rest ih =>
    intro g
    rw [List.foldl_cons, ih, add_dependency_entry_points]

theorem edge_fold_keys (src : List (String × ModuleNode)) :
    ∀ g : ModuleGraph,
      ((src.foldl
          (fun g p => p.2.dependencies.foldl (fun g2 dep_id => g2.add_dependency p.1 dep_id) g)
          g).modules).map (fun p => p.1) =
        g.modules.map (fun p => p.1) := by
  induction src with
  | nil => intro g; rfl
  | cons p rest ih =>
    intro g
    rw [List.foldl_cons, ih, inner_edge_fold_keys]

theorem edge_fold_entry_points (src : List (String × ModuleNode)) :
    ∀ g : ModuleGraph,
      (src.foldl
          (fun g p => p.2.dependencies.foldl (fun g2 dep_id => g2.add_dependency p.1 dep_id) g)
          g).entry_points = g.entry_points := by
  induction src with
  | nil => intro g; rfl
  | cons p rest ih =>
    intro g
    rw [List.foldl_cons, ih, inner_edge_fold_entry_points]

theorem entries_fold_modules (entries : List String) :
    ∀ g : ModuleGraph,
      (entries.foldl
          (fun g entry_id =>
            if (mapFind? g.modules entry_id).isSome then g.add_entry_point entry_id else g)
          g).modules = g.modules := by
  induction entries with
  | nil => intro g; rfl
  | cons e rest ih =>
    intro g
    rw [List.foldl_cons, ih]
    by_cases h : (mapFind? g.modules e).isSome
    · rw [if_pos h]
      unfold ModuleGraph.add_entry_point
      by_cases h2 : e ∈ g.entry_points
      · rw [if_pos h2]
      · rw [if_neg h2]
    · rw [if_neg h]

theorem mapInsert_ne_nil {β : Type} (m : List (String × β)) (k : String) (v : β) :
    mapInsert m k v ≠ [] := by
  cases m with
  | nil => simp [mapInsert]
  | cons p rest =>
    obtain ⟨k', v'⟩ := p
    by_cases h : k' = k <;> simp [mapInsert, h]

theorem module_fold_nonempty (ms : List (String × String)) :
    ∀ g : ModuleGraph, g.modules ≠ [] →
      (ms.foldl
          (fun g m =>
            let dependencies := extract_dependencies_from_source m.2
            let module_node :=
              dependencies.foldl (fun node dep_id => node.add_dependency dep_id)
                (ModuleNode.new m.1 m.2)
            g.add_module module_node)
          g).modules ≠ [] := by
  induction ms with
  | nil => intro g h; exact h
  | cons m rest ih =>
    intro g h
    rw [List.foldl_cons]
    exact ih _ (mapInsert_ne_nil _ _ _)

/-! ## C5: behaviour on non-bundles and entry-free bundles -/

/-- C5 counterexample: on an input with no recognisable modules table,
`parse_bundle` returns an `InvalidBundleFormat` error instead of an empty
graph with success; likewise a bundle whose table is found but that has no
entry-point call is an error. -/
theorem C5_counterexample :
    parse_bundle exProg5a =
      .error (.InvalidBundleFormat "No __webpack_modules__ found in bundle") ∧
    parse_bundle exProg5b =
      .error (.InvalidBundleFormat
        "No entry points found - __webpack_require__ calls must exist outside __webpack_modules__") :=
  ⟨rfl, rfl⟩

/-- Inversion of a successful `parse_bundle`: the visitor found a non-empty
modules table, the result is the three-stage graph, and its entry list is
non-empty. -/
theorem parse_bundle_ok_elim (program : List Stmt) (g : ModuleGraph)
    (h : parse_bundle program = .ok g) :
    (wVisitStmtList WebpackVisitor.new program).webpack_modules ≠ [] ∧
    g = addEntriesStage (wVisitStmtList WebpackVisitor.new program).entry_points
          (buildEdgesStage
            (buildModulesStage (wVisitStmtList WebpackVisitor.new program).webpack_modules)) ∧
    g.entry_points ≠ [] := by
  unfold parse_bundle at h
  by_cases h1 : (wVisitStmtList WebpackVisitor.new program).webpack_modules.isEmpty
  · rw [if_pos h1] at h
    exact absurd h (by simp)
  · rw [if_neg h1] at h
    simp only [] at h
    by_cases h2 : (addEntriesStage (wVisitStmtList WebpackVisitor.new program).entry_points
        (buildEdgesStage
          (buildModulesStage
            (wVisitStmtList WebpackVisitor.new program).webpack_modules))).entry_points.isEmpty
    · rw [if_pos h2] at h
      exact absurd h (by simp)
    · rw [if_neg h2] at h
      have hg := Except.ok.inj h
      refine ⟨?_, hg.symm, ?_⟩
      · intro hx
        rw [hx] at h1
        exact h1 rfl
      · rw [hg] at h2
        intro hx
        rw [hx] at h2
        exact h2 rfl

/-- C5 (amended): `WebpackBundleParser::parse_bundle` is not best-effort: it
succeeds only when a modules table was recognised and at least one entry
point survived, i.e. every successful parse returns a graph with a non-empty
module map and non-empty entry list, and the no-bundle and no-entry inputs
fail with `InvalidBundleFormat` errors (the counterexample exhibits both
error values). -/
theorem C5_parse_bundle_ok_nonempty (program : List Stmt) (g : ModuleGraph)
    (h : parse_bundle program = .ok g) : g.modules ≠ [] ∧ g.entry_points ≠ [] := by
  obtain ⟨hms, hg, hentries⟩ := parse_bundle_ok_elim program g h
  refine ⟨?_, hentries⟩
  have hmods : (addEntriesStage (wVisitStmtList WebpackVisitor.new program).entry_points
      (buildEdgesStage
        (buildModulesStage (wVisitStmtList WebpackVisitor.new program).webpack_modules))).modules =
      (buildEdgesStage
        (buildModulesStage (wVisitStmtList WebpackVisitor.new program).webpack_modules)).modules := by
    unfold addEntriesStage
    exact entries_fold_modules _ _
  have hkeys : (buildEdgesStage
      (buildModulesStage (wVisitStmtList WebpackVisitor.new program).webpack_modules)).modules.map
        (fun p => p.1) =
      (buildModulesStage (wVisitStmtList WebpackVisitor.new program).webpack_modules).modules.map
        (fun p => p.1) := by
    unfold buildEdgesStage
    exact edge_fold_keys _ _
  have hBuiltNe :
      (buildModulesStage (wVisitStmtList WebpackVisitor.new program).webpack_modules).modules ≠
        [] := by
    unfold buildModulesStage
    cases hcase : (wVisitStmtList WebpackVisitor.new program).webpack_modules with
    | nil => exact absurd hcase hms
    | cons m rest =>
      rw [List.foldl_cons]
      exact module_fold_nonempty rest _ (mapInsert_ne_nil _ _ _)
  rw [hg, hmods]
  intro hx
  apply hBuiltNe
  have hempty : (buildEdgesStage
      (buildModulesStage (wVisitStmtList WebpackVisitor.new program).webpack_modules)).modules.map
        (fun p => p.1) = [] := by
    rw [hx]; rfl
  rw [hkeys] at hempty
  exact List.map_eq_nil_iff.mp hempty

/-- C5 witness: the amended statement applied to the concrete bundle
`exProg1`, whose parse succeeds. -/
theorem C5_witness : exG1.modules ≠ [] ∧ exG1.entry_points ≠ [] :=
  C5_parse_bundle_ok_nonempty exProg1 exG1 (by rfl)

/-! ## Key-set behaviour of removal -/

theorem foldl_keys_invariant {α : Type}
    (step : List (String × ModuleNode) → α → List (String × ModuleNode))
    (hstep : ∀ m a, (step m a).map (fun p => p.1) = m.map (fun p => p.1)) :
    ∀ (xs : List α) (m : List (String × ModuleNode)),
      ((xs.foldl step m).map (fun p => p.1)) = m.map (fun p => p.1) := by
  intro xs
  induction xs with
  | nil => intro m; rfl
  | cons x rest ih => intro m; rw [List.foldl_cons, ih, hstep]

theorem keys_filter_ne (l : List (String × ModuleNode)) (id : String) :
    (l.filter (fun p => p.1 ≠ id)).map (fun p => p.1) =
      (l.map (fun p => p.1)).filter (fun k => k ≠ id) := by
  induction l with
  | nil => rfl
  | cons p rest ih =>
    by_cases h : p.1 = id
    · simpa [List.filter_cons, h] using ih
    · simpa [List.filter_cons, h] using ih

theorem remove_module_keys (g : ModuleGraph) (id : String) :
    ((remove_module g id).2).keys = g.keys.filter (fun k => k ≠ id) := by
  unfold remove_module
  cases h : mapFind? g.modules id with
  | none =>
    have hid : id ∉ g.keys := (mapFind?_eq_none_iff g.modules id).mp h
    simp only []
    symm
    apply List.filter_eq_self.mpr
    intro a ha
    rw [decide_eq_true_eq]
    intro he
    exact hid (he ▸ ha)
  | some removed_module =>
    simp only [ModuleGraph.keys]
    rw [foldl_keys_invariant _ (fun m a => mapModify_keys m a _)]
    rw [foldl_keys_invariant _ (fun m a => mapModify_keys m a _)]
    exact keys_filter_ne _ _

theorem applyRemovals_keys (ops : List String) :
    ∀ g : ModuleGraph,
      (applyRemovals g ops).keys = g.keys.filter (fun k => k ∉ ops) := by
  induction ops with
  | nil =>
    intro g
    simp [applyRemovals]
  | cons x rest ih =>
    intro g
    have h1 : applyRemovals g (x :: rest) = applyRemovals ((remove_module g x).2) rest := rfl
    rw [h1, ih, remove_module_keys]
    rw [List.filter_filter]
    apply List.filter_congr
    intro k _
    by_cases hx : k = x
    · simp [hx]
    · by_cases hr : k ∈ rest <;> simp [hx, hr]

/-! ## C1: the key set remaining after `shake` -/

/-- C1 counterexample: `exProg1`'s graph holds module `100` with a dangling
dependency on the absent `200`; the BFS inserts `200` into the reachable
set, but after `shake` the module map still contains only `100`, so the
remaining key set does not equal the reachable set computed on the
pre-pruned graph. -/
theorem C1_counterexample :
    parse_bundle exProg1 = .ok exG1 ∧
    "200" ∈ exG1.get_reachable_modules ∧
    "200" ∉ (shake exG1).2.keys :=
  ⟨rfl, by decide, by decide⟩

/-- C1 (amended): for every graph built by the bundle parser, after
`TreeShaker::shake` the set of module ids remaining in the graph equals the
reachable set computed on the pre-pruned graph *intersected with the
pre-pruned graph's key set* (the BFS may also report ids of absent modules,
reached through dangling dependency edges, which never were in the map);
in particular every remaining module — entry or not — is in the reachable
set. -/
theorem C1_shake_keys (program : List Stmt) (g : ModuleGraph)
    (_h : parse_bundle program = .ok g) :
    (shake g).2.keys = g.keys.filter (fun id => g.get_reachable_modules.contains id) ∧
    ∀ id ∈ (shake g).2.keys, id ∈ g.get_reachable_modules := by
  clear _h
  have h2 : (shake g).2 = applyRemovals g g.get_unreachable_modules := rfl
  have h3 : (shake g).2.keys =
      g.keys.filter (fun id => g.get_reachable_modules.contains id) := by
    rw [h2, applyRemovals_keys]
    apply List.filter_congr
    intro k hk
    unfold ModuleGraph.get_unreachable_modules
    simp only [List.mem_filter, decide_eq_true_eq, not_and, Bool.not_eq_true]
    by_cases hc : g.get_reachable_modules.contains k
    · simp [hc, hk]
    · simp [hc, hk]
  refine ⟨h3, ?_⟩
  intro id hid
  rw [h3] at hid
  have := List.of_mem_filter hid
  simp only [decide_eq_true_eq] at this
  exact List.mem_of_elem_eq_true this

/-- C1 witness: the amended statement at the concrete parsed bundle
`exProg1`. -/
theorem C1_witness :
    (shake exG1).2.keys =
      exG1.keys.filter (fun id => exG1.get_reachable_modules.contains id) ∧
    ∀ id ∈ (shake exG1).2.keys, id ∈ exG1.get_reachable_modules :=
  C1_shake_keys exProg1 exG1 rfl

/-! ## Lookup lemmas for the association-map operations -/

theorem mapFind?_mapModify {β : Type} (m : List (String × β)) (k : String)
    (f : β → β) (v : String) :
    mapFind? (mapModify m k f) v =
      if v = k then (mapFind? m k).map f else mapFind? m v := by
  induction m with
  | nil => by_cases h : v = k <;> simp [mapModify, mapFind?, h]
  | cons p rest ih =>
    obtain ⟨k', v'⟩ := p
    by_cases h1 : k' = k <;> by_cases h2 : k' = v <;> by_cases h3 : v = k <;>
      simp_all [mapModify, mapFind?]

theorem mapFind?_mapInsert {β : Type} (m : List (String × β)) (k : String) (n : β) (v : String) :
    mapFind? (mapInsert m k n) v = if k = v then some n else mapFind? m v := by
  induction m with
  | nil => simp [mapInsert, mapFind?]
  | cons p rest ih =>
    obtain ⟨k', v'⟩ := p
    by_cases h1 : k' = k <;> by_cases h2 : k' = v <;> by_cases h3 : k = v <;>
      simp_all [mapInsert, mapFind?]

theorem mapFind?_filter_ne (m : List (String × ModuleNode)) (id v : String) (hne : v ≠ id) :
    mapFind? (m.filter (fun p => p.1 ≠ id)) v = mapFind? m v := by
  induction m with
  | nil => rfl
  | cons p rest ih =>
    obtain ⟨k', n'⟩ := p
    by_cases h1 : k' = id <;> by_cases h2 : k' = v <;>
      simp_all [List.filter_cons, mapFind?]

theorem mapFind?_mem {β : Type} (m : List (String × β)) (k : String) (n : β)
    (h : mapFind? m k = some n) : (k, n) ∈ m := by
  induction m with
  | nil => simp [mapFind?] at h
  | cons p rest ih =>
    obtain ⟨k', v'⟩ := p
    by_cases h1 : k' = k
    · subst h1
      simp [mapFind?] at h
      subst h
      exact List.mem_cons_self _ _
    · simp only [mapFind?, if_neg h1] at h
      exact List.mem_cons_of_mem _ (ih h)

theorem mapFind?_of_mem_nodup {β : Type} :
    ∀ (m : List (String × β)), (m.map (fun p => p.1)).Nodup →
      ∀ (k : String) (n : β), (k, n) ∈ m → mapFind? m k = some n := by
  intro m
  induction m with
  | nil => intro _ k n hm; simp at hm
  | cons p rest ih =>
    obtain ⟨k', v'⟩ := p
    intro hnd k n hm
    simp only [List.map_cons, List.nodup_cons] at hnd
    rcases List.mem_cons.mp hm with heq | hrest
    · have hk : k = k' := congrArg Prod.fst heq
      have hn : n = v' := congrArg Prod.snd heq
      subst hk
      subst hn
      simp [mapFind?]
    · have hkne : k' ≠ k := by
        intro hh
        subst hh
        exact hnd.1 (List.mem_map.mpr ⟨(k', n), hrest, rfl⟩)
      simp only [mapFind?, if_neg hkne]
      exact ih hnd.2 k n hrest

theorem keys_mapInsert_mem {β : Type} (k : String) (n : β) :
    ∀ (m : List (String × β)) (x : String),
      x ∈ (mapInsert m k n).map (fun p => p.1) → x = k ∨ x ∈ m.map (fun p => p.1) := by
  intro m
  induction m with
  | nil =>
    intro x hx
    simp [mapInsert] at hx
    exact Or.inl hx
  | cons p rest ih =>
    obtain ⟨k', v'⟩ := p
    intro x hx
    by_cases h1 : k' = k
    · rw [mapInsert, if_pos h1] at hx
      simp only [List.map_cons, List.mem_cons] at hx
      rcases hx with h | h
      · exact Or.inl h
      · exact Or.inr (by simp only [List.map_cons, List.mem_cons]; exact Or.inr h)
    · rw [mapInsert, if_neg h1] at hx
      simp only [List.map_cons, List.mem_cons] at hx
      rcases hx with h | h
      · exact Or.inr (by simp only [List.map_cons, List.mem_cons]; exact Or.inl h)
      · rcases ih x h with h2 | h2
        · exact Or.inl h2
        · exact Or.inr (by simp only [List.map_cons, List.mem_cons]; exact Or.inr h2)

theorem nodup_keys_mapInsert {β : Type} (k : String) (n : β) :
    ∀ m : List (String × β), (m.map (fun p => p.1)).Nodup →
      ((mapInsert m k n).map (fun p => p.1)).Nodup := by
  intro m
  induction m with
  | nil =>
    intro _
    simp [mapInsert]
  | cons p rest ih =>
    obtain ⟨k', v'⟩ := p
    intro hnd
    simp only [List.map_cons, List.nodup_cons] at hnd
    by_cases h1 : k' = k
    · rw [mapInsert, if_pos h1]
      subst h1
      simp only [List.map_cons, List.nodup_cons]
      exact hnd
    · rw [mapInsert, if_neg h1]
      simp only [List.map_cons, List.nodup_cons]
      refine ⟨?_, ih hnd.2⟩
      intro hx
      rcases keys_mapInsert_mem k n rest k' hx with h2 | h2
      · exact h1 h2
      · exact hnd.1 h2

/-! ## Membership transfer through the modify-folds of `remove_module` -/

theorem foldl_mapModify_find?_rel (f : ModuleNode → ModuleNode)
    (R : ModuleNode → ModuleNode → Prop)
    (hrefl : ∀ n, R n n)
    (htrans : ∀ a b c, R a b → R b c → R a c)
    (hstep : ∀ n, R n (f n)) (ids : List String) :
    ∀ (m0 : List (String × ModuleNode)) (v : String) (nv' : ModuleNode),
      mapFind? (ids.foldl (fun m i => mapModify m i f) m0) v = some nv' →
      ∃ nv, mapFind? m0 v = some nv ∧ R nv nv' := by
  induction ids with
  | nil => intro m0 v nv' h; exact ⟨nv', h, hrefl nv'⟩
  | cons i rest ih =>
    intro m0 v nv' h
    rw [List.foldl_cons] at h
    obtain ⟨nv1, h1, hR1⟩ := ih (mapModify m0 i f) v nv' h
    rw [mapFind?_mapModify] at h1
    by_cases hv : v = i
    · rw [if_pos hv] at h1
      subst hv
      cases h0 : mapFind? m0 v with
      | none => rw [h0] at h1; exact absurd h1 (by simp)
      | some nv0 =>
        rw [h0] at h1
        simp only [Option.map_some'] at h1
        obtain rfl := Option.some.inj h1
        exact ⟨nv0, rfl, htrans _ _ _ (hstep nv0) hR1⟩
    · rw [if_neg hv] at h1
      exact ⟨nv1, h1, hR1⟩

/-! ## `remove_module` preserves bidirectional consistency -/

theorem remove_module_bidir (g : ModuleGraph) (module_id : String) (h : BidirConsistent g) :
    BidirConsistent ((remove_module g module_id).2) := by
  unfold remove_module
  cases hf : mapFind? g.modules module_id with
  | none => exact h
  | some removed =>
    intro u nu' v nv' hu hv
    simp only [] at hu hv
    -- membership-outside-module_id transfer relation
    set R : ModuleNode → ModuleNode → Prop := fun n n' =>
      (∀ x, x ≠ module_id → (x ∈ n'.dependencies ↔ x ∈ n.dependencies)) ∧
      (∀ x, x ≠ module_id → (x ∈ n'.dependents ↔ x ∈ n.dependents)) with hRdef
    have hrefl : ∀ n, R n n := fun n => ⟨fun _ _ => Iff.rfl, fun _ _ => Iff.rfl⟩
    have htrans : ∀ a b c, R a b → R b c → R a c := by
      intro a b c hab hbc
      exact ⟨fun x hx => (hbc.1 x hx).trans (hab.1 x hx),
             fun x hx => (hbc.2 x hx).trans (hab.2 x hx)⟩
    have hstep1 : ∀ n, R n { n with dependents := n.dependents.erase module_id } := by
      intro n
      exact ⟨fun x hx => Iff.rfl, fun x hx => List.mem_erase_of_ne hx⟩
    have hstep2 : ∀ n, R n { n with dependencies := n.dependencies.erase module_id } := by
      intro n
      exact ⟨fun x hx => List.mem_erase_of_ne hx, fun x hx => Iff.rfl⟩
    have hkeys : ∀ (w : String) (nw : ModuleNode),
        mapFind? (removed.dependents.foldl
          (fun m dependent_id => mapModify m dependent_id
            (fun dep => { dep with dependencies := dep.dependencies.erase module_id }))
          (removed.dependencies.foldl
            (fun m dep_id => mapModify m dep_id
              (fun dep => { dep with dependents := dep.dependents.erase module_id }))
            (g.modules.filter (fun p => p.1 ≠ module_id)))) w = some nw →
        w ≠ module_id := by
      intro w nw hw hwid
      have hnone : mapFind? (removed.dependents.foldl
          (fun m dependent_id => mapModify m dependent_id
            (fun dep => { dep with dependencies := dep.dependencies.erase module_id }))
          (removed.dependencies.foldl
            (fun m dep_id => mapModify m dep_id
              (fun dep => { dep with dependents := dep.dependents.erase module_id }))
            (g.modules.filter (fun p => p.1 ≠ module_id)))) module_id = none := by
        apply (mapFind?_eq_none_iff _ _).mpr
        rw [foldl_keys_invariant _ (fun m a => mapModify_keys m a _)]
        rw [foldl_keys_invariant _ (fun m a => mapModify_keys m a _)]
        rw [keys_filter_ne]
        intro hmem
        have := List.of_mem_filter hmem
        simp at this
      rw [hwid] at hw
      rw [hw] at hnone
      exact absurd hnone (by simp)
    have huid : u ≠ module_id := hkeys u nu' hu
    have hvid : v ≠ module_id := hkeys v nv' hv
    obtain ⟨nu1, hu1, hRu1⟩ := foldl_mapModify_find?_rel _ R hrefl htrans hstep2 _ _ u nu' hu
    obtain ⟨nu0, hu0, hRu0⟩ := foldl_mapModify_find?_rel _ R hrefl htrans hstep1 _ _ u nu1 hu1
    rw [mapFind?_filter_ne _ _ _ huid] at hu0
    obtain ⟨nv1, hv1, hRv1⟩ := foldl_mapModify_find?_rel _ R hrefl htrans hstep2 _ _ v nv' hv
    obtain ⟨nv0, hv0, hRv0⟩ := foldl_mapModify_find?_rel _ R hrefl htrans hstep1 _ _ v nv1 hv1
    rw [mapFind?_filter_ne _ _ _ hvid] at hv0
    have hRu := htrans _ _ _ hRu0 hRu1
    have hRv := htrans _ _ _ hRv0 hRv1
    have hbase := h u nu0 v nv0 hu0 hv0
    rw [hRv.1 u huid, hRu.2 v hvid]
    exact hbase

/-! ## Parser-built graphs are bidirectionally consistent -/

theorem node_build_dependents (ds : List String) :
    ∀ n0 : ModuleNode,
      (ds.foldl (fun node dep_id => node.add_dependency dep_id) n0).dependents =
        n0.dependents := by
  induction ds with
  | nil => intro n0; rfl
  | cons d rest ih =>
    intro n0
    rw [List.foldl_cons, ih]
    rfl

theorem buildModulesStage_dependents (ms : List (String × String)) :
    ∀ (v : String) (nv : ModuleNode),
      mapFind? (buildModulesStage ms).modules v = some nv → nv.dependents = [] := by
  unfold buildModulesStage
  suffices hgen : ∀ (ms : List (String × String)) (g : ModuleGraph),
      (∀ v nv, mapFind? g.modules v = some nv → nv.dependents = []) →
      ∀ v nv,
        mapFind? ((ms.foldl
          (fun g m =>
            let dependencies := extract_dependencies_from_source m.2
            let module_node :=
              dependencies.foldl (fun node dep_id => node.add_dependency dep_id)
                (ModuleNode.new m.1 m.2)
            g.add_module module_node)
          g).modules) v = some nv → nv.dependents = [] by
    intro v nv
    exact hgen ms ModuleGraph.new (by intro v nv h; simp [ModuleGraph.new, mapFind?] at h) v nv
  intro ms
  induction ms with
  | nil => intro g hg v nv h; exact hg v nv h
  | cons m rest ih =>
    intro g hg v nv h
    rw [List.foldl_cons] at h
    refine ih _ ?_ v nv h
    intro w nw hw
    simp only [ModuleGraph.add_module] at hw
    rw [mapFind?_mapInsert] at hw
    by_cases hk : ((extract_dependencies_from_source m.2).foldl
        (fun node dep_id => node.add_dependency dep_id) (ModuleNode.new m.1 m.2)).id = w
    · rw [if_pos hk] at hw
      obtain rfl := Option.some.inj hw
      rw [node_build_dependents]
      rfl
    · rw [if_neg hk] at hw
      exact hg w nw hw

theorem buildModulesStage_keys_nodup (ms : List (String × String)) :
    ((buildModulesStage ms).modules.map (fun p => p.1)).Nodup := by
  unfold buildModulesStage
  suffices hgen : ∀ (ms : List (String × String)) (g : ModuleGraph),
      (g.modules.map (fun p => p.1)).Nodup →
      (((ms.foldl
        (fun g m =>
          let dependencies := extract_dependencies_from_source m.2
          let module_node :=
            dependencies.foldl (fun node dep_id => node.add_dependency dep_id)
              (ModuleNode.new m.1 m.2)
          g.add_module module_node)
        g).modules).map (fun p => p.1)).Nodup by
    exact hgen ms ModuleGraph.new (by simp [ModuleGraph.new])
  intro ms
  induction ms with
  | nil => intro g hg; exact hg
  | cons m rest ih =>
    intro g hg
    rw [List.foldl_cons]
    exact ih _ (nodup_keys_mapInsert _ _ _ hg)

theorem add_dependency_find? (g : ModuleGraph) (a b v : String) (nv' : ModuleNode)
    (h : mapFind? (g.add_dependency a b).modules v = some nv') :
    ∃ nv, mapFind? g.modules v = some nv ∧
      (∀ x, x ∈ nv'.dependencies ↔ x ∈ nv.dependencies ∨ (v = a ∧ x = b)) ∧
      (∀ y, y ∈ nv'.dependents ↔ y ∈ nv.dependents ∨ (v = b ∧ y = a)) := by
  unfold ModuleGraph.add_dependency at h
  simp only [] at h
  rw [mapFind?_mapModify] at h
  by_cases hb : v = b
  · rw [if_pos hb] at h
    rw [mapFind?_mapModify] at h
    by_cases hba : b = a
    · rw [if_pos hba] at h
      cases h0 : mapFind? g.modules a with
      | none => rw [h0] at h; exact absurd h (by simp)
      | some nv0 =>
        rw [h0] at h
        simp only [Option.map_some'] at h
        obtain rfl := Option.some.inj h
        have hva : v = a := hb.trans hba
        refine ⟨nv0, by rw [hva]; exact h0, ?_, ?_⟩
        · intro x
          simp [ModuleNode.add_dependency, ModuleNode.add_dependent, List.mem_insert_iff, hva]
          tauto
        · intro y
          simp [ModuleNode.add_dependency, ModuleNode.add_dependent, List.mem_insert_iff, hb]
          tauto
    · rw [if_neg hba] at h
      cases h0 : mapFind? g.modules b with
      | none => rw [h0] at h; exact absurd h (by simp)
      | some nv0 =>
        rw [h0] at h
        simp only [Option.map_some'] at h
        obtain rfl := Option.some.inj h
        have hva : ¬ v = a := fun hh => hba (hb.symm.trans hh)
        refine ⟨nv0, by rw [hb]; exact h0, ?_, ?_⟩
        · intro x
          simp [ModuleNode.add_dependent, hva]
        · intro y
          simp [ModuleNode.add_dependent, List.mem_insert_iff, hb]
          tauto
  · rw [if_neg hb] at h
    rw [mapFind?_mapModify] at h
    by_cases ha : v = a
    · rw [if_pos ha] at h
      cases h0 : mapFind? g.modules a with
      | none => rw [h0] at h; exact absurd h (by simp)
      | some nv0 =>
        rw [h0] at h
        simp only [Option.map_some'] at h
        obtain rfl := Option.some.inj h
        refine ⟨nv0, by rw [ha]; exact h0, ?_, ?_⟩
        · intro x
          simp [ModuleNode.add_dependency, List.mem_insert_iff, ha]
          tauto
        · intro y
          simp [ModuleNode.add_dependency, hb]
    · rw [if_neg ha] at h
      refine ⟨nv', h, ?_, ?_⟩
      · intro x
        simp [ha]
      · intro y
        simp [hb]

theorem edge_pairs_fold_find? (pairs : List (String × String)) :
    ∀ (g : ModuleGraph) (v : String) (nv' : ModuleNode),
      mapFind? ((pairs.foldl (fun g2 pr => g2.add_dependency pr.1 pr.2) g).modules) v =
        some nv' →
      ∃ nv, mapFind? g.modules v = some nv ∧
        (∀ x, x ∈ nv'.dependencies ↔ x ∈ nv.dependencies ∨ (v, x) ∈ pairs) ∧
        (∀ y, y ∈ nv'.dependents ↔ y ∈ nv.dependents ∨ (y, v) ∈ pairs) := by
  induction pairs with
  | nil =>
    intro g v nv' h
    exact ⟨nv', h, by simp, by simp⟩
  | cons pr rest ih =>
    intro g v nv' h
    rw [List.foldl_cons] at h
    obtain ⟨nv1, h1, hd1, ht1⟩ := ih _ v nv' h
    obtain ⟨nv0, h0, hd0, ht0⟩ := add_dependency_find? g pr.1 pr.2 v nv1 h1
    refine ⟨nv0, h0, ?_, ?_⟩
    · intro x
      rw [hd1 x, hd0 x]
      simp only [List.mem_cons, Prod.ext_iff]
      tauto
    · intro y
      rw [ht1 y, ht0 y]
      simp only [List.mem_cons, Prod.ext_iff]
      tauto

theorem buildEdgesStage_eq_flat (src : List (String × ModuleNode)) :
    ∀ g : ModuleGraph,
      src.foldl
        (fun g2 p => p.2.dependencies.foldl (fun g3 dep_id => g3.add_dependency p.1 dep_id) g2)
        g =
      (src.flatMap (fun p => p.2.dependencies.map (fun d => (p.1, d)))).foldl
        (fun g2 pr => g2.add_dependency pr.1 pr.2) g := by
  induction src with
  | nil => intro g; rfl
  | cons p rest ih =>
    intro g
    rw [List.foldl_cons, List.flatMap_cons, List.foldl_append, ih, List.foldl_map]

theorem parse_bundle_bidir (program : List Stmt) (g : ModuleGraph)
    (h : parse_bundle program = .ok g) : BidirConsistent g := by
  obtain ⟨hms, hg, hent⟩ := parse_bundle_ok_elim program g h
  subst hg
  intro u nu v nv hu hv
  rw [show (addEntriesStage (wVisitStmtList WebpackVisitor.new program).entry_points
      (buildEdgesStage
        (buildModulesStage (wVisitStmtList WebpackVisitor.new program).webpack_modules))).modules =
      (buildEdgesStage
        (buildModulesStage (wVisitStmtList WebpackVisitor.new program).webpack_modules)).modules
    from entries_fold_modules _ _] at hu hv
  have hflat := buildEdgesStage_eq_flat
    (buildModulesStage (wVisitStmtList WebpackVisitor.new program).webpack_modules).modules
    (buildModulesStage (wVisitStmtList WebpackVisitor.new program).webpack_modules)
  rw [show buildEdgesStage
      (buildModulesStage (wVisitStmtList WebpackVisitor.new program).webpack_modules) =
      ((buildModulesStage
          (wVisitStmtList WebpackVisitor.new program).webpack_modules).modules.flatMap
        (fun p => p.2.dependencies.map (fun d => (p.1, d)))).foldl
        (fun g2 pr => g2.add_dependency pr.1 pr.2)
        (buildModulesStage (wVisitStmtList WebpackVisitor.new program).webpack_modules)
    from hflat] at hu hv
  set gB := buildModulesStage (wVisitStmtList WebpackVisitor.new program).webpack_modules
    with hgB
  set pairs := gB.modules.flatMap (fun p => p.2.dependencies.map (fun d => (p.1, d))) with hpairs
  have hnd : (gB.modules.map (fun p => p.1)).Nodup := buildModulesStage_keys_nodup _
  have hdeps0 := buildModulesStage_dependents
    (wVisitStmtList WebpackVisitor.new program).webpack_modules
  obtain ⟨nu0, hu0, hdU, htU⟩ := edge_pairs_fold_find? pairs gB u nu hu
  obtain ⟨nv0, hv0, hdV, htV⟩ := edge_pairs_fold_find? pairs gB v nv hv
  have hpair : ((v, u) ∈ pairs) ↔ u ∈ nv0.dependencies := by
    constructor
    · intro hp
      rw [hpairs, List.mem_flatMap] at hp
      obtain ⟨q, hq, hmem⟩ := hp
      rw [List.mem_map] at hmem
      obtain ⟨d, hd, heq⟩ := hmem
      have h1 : q.1 = v := congrArg Prod.fst heq
      have h2 : d = u := congrArg Prod.snd heq
      have hfq : mapFind? gB.modules q.1 = some q.2 :=
        mapFind?_of_mem_nodup gB.modules hnd q.1 q.2 hq
      rw [h1] at hfq
      rw [hv0] at hfq
      obtain rfl := Option.some.inj hfq
      exact h2 ▸ hd
    · intro hmem
      rw [hpairs, List.mem_flatMap]
      refine ⟨(v, nv0), mapFind?_mem _ _ _ hv0, ?_⟩
      rw [List.mem_map]
      exact ⟨u, hmem, rfl⟩
  have hdeps_u0 : nu0.dependents = [] := hdeps0 u nu0 (hgB ▸ hu0)
  rw [hdV u, htU v, hpair, hdeps_u0]
  simp

theorem applyRemovals_bidir (ops : List String) :
    ∀ g : ModuleGraph, BidirConsistent g → BidirConsistent (applyRemovals g ops) := by
  induction ops with
  | nil => intro g hg; exact hg
  | cons x rest ih =>
    intro g hg
    have hstep : applyRemovals g (x :: rest) = applyRemovals ((remove_module g x).2) rest := rfl
    rw [hstep]
    exact ih _ (remove_module_bidir g x hg)

/-! ## C6: bidirectional edge consistency -/

/-- C6: in every module graph produced by the bundle parser, and after every
sequence of `remove_module` operations, edges are bidirectionally
consistent: for present modules `u` and `v`, `u ∈ deps(v) ⇔ v ∈
dependents(u)`. -/
theorem C6_edge_consistency (program : List Stmt) (g : ModuleGraph) (ops : List String)
    (h : parse_bundle program = .ok g) : BidirConsistent (applyRemovals g ops) :=
  applyRemovals_bidir ops g (parse_bundle_bidir program g h)

/-- C6 witness: the concrete parsed bundle `exProg1`, followed by removing
module `100`. -/
theorem C6_witness : BidirConsistent (applyRemovals exG1 ["100"]) :=
  C6_edge_consistency exProg1 exG1 ["100"] rfl

/-! ## C8: recognition of load calls, entry recording, dependency walk -/

theorem extract_webpack_require_call_characterisation (e : Expr) (id : String) :
    extract_webpack_require_call e = some id ↔
      ∃ sp sp1 sp2 n rest,
        e = .call sp (.ident sp1 "__webpack_require__") (.numLit sp2 n :: rest) ∧
        id = canonicalNumId n := by
  constructor
  · intro h
    cases e with
    | call sp callee args =>
      cases callee with
      | ident sp1 sym =>
        by_cases hsym : sym = "__webpack_require__"
        · subst hsym
          cases args with
          | nil => simp [extract_webpack_require_call] at h
          | cons a rest =>
            cases a with
            | numLit sp2 n =>
              simp [extract_webpack_require_call] at h
              exact ⟨sp, sp1, sp2, n, rest, rfl, h.symm⟩
            | nullLit s => simp [extract_webpack_require_call] at h
            | boolLit s b => simp [extract_webpack_require_call] at h
            | strLit s s2 => simp [extract_webpack_require_call] at h
            | ident s s2 => simp [extract_webpack_require_call] at h
            | call s c a2 => simp [extract_webpack_require_call] at h
            | paren s i => simp [extract_webpack_require_call] at h
            | fnExpr s p b => simp [extract_webpack_require_call] at h
            | assign s t r => simp [extract_webpack_require_call] at h
            | array s el => simp [extract_webpack_require_call] at h
            | object s pr => simp [extract_webpack_require_call] at h
        · simp [extract_webpack_require_call, hsym] at h
      | nullLit s => simp [extract_webpack_require_call] at h
      | boolLit s b => simp [extract_webpack_require_call] at h
      | numLit s n => simp [extract_webpack_require_call] at h
      | strLit s s2 => simp [extract_webpack_require_call] at h
      | call s c a => simp [extract_webpack_require_call] at h
      | paren s i => simp [extract_webpack_require_call] at h
      | fnExpr s p b => simp [extract_webpack_require_call] at h
      | assign s t r => simp [extract_webpack_require_call] at h
      | array s el => simp [extract_webpack_require_call] at h
      | object s pr => simp [extract_webpack_require_call] at h
    | nullLit s => simp [extract_webpack_require_call] at h
    | boolLit s b => simp [extract_webpack_require_call] at h
    | numLit s n => simp [extract_webpack_require_call] at h
    | strLit s s2 => simp [extract_webpack_require_call] at h
    | ident s n => simp [extract_webpack_require_call] at h
    | paren s i => simp [extract_webpack_require_call] at h
    | fnExpr s p b => simp [extract_webpack_require_call] at h
    | assign s t r => simp [extract_webpack_require_call] at h
    | array s el => simp [extract_webpack_require_call] at h
    | object s pr => simp [extract_webpack_require_call] at h
  · rintro ⟨sp, sp1, sp2, n, rest, rfl, rfl⟩
    rfl

theorem record_entry_point_spec (st : WebpackVisitor) (c : Expr) :
    (record_entry_point st c).webpack_modules_span = st.webpack_modules_span ∧
    (record_entry_point st c).webpack_modules = st.webpack_modules ∧
    (record_entry_point st c).entry_points =
      (match entryCandidate st.webpack_modules_span c with
       | some id => if id ∈ st.entry_points then st.entry_points else st.entry_points ++ [id]
       | none => st.entry_points) := by
  unfold record_entry_point entryCandidate
  cases hmsp : st.webpack_modules_span with
  | none =>
    cases hex : extract_webpack_require_call c with
    | none => simp [hmsp]
    | some id =>
      by_cases hin : id ∈ st.entry_points <;> simp [hin, hmsp]
  | some ms =>
    by_cases hc : ms.spanContains c.span
    · simp [hc, hmsp]
    · simp only [Bool.not_eq_true] at hc
      cases hex : extract_webpack_require_call c with
      | none => simp [hc, hmsp]
      | some id =>
        by_cases hin : id ∈ st.entry_points <;> simp [hc, hin, hmsp]

theorem entries_fold_spec (calls : List Expr) :
    ∀ st : WebpackVisitor,
      (calls.foldl record_entry_point st).entry_points =
        st.entry_points ++
          dedupKeepFirst st.entry_points
            (calls.filterMap (entryCandidate st.webpack_modules_span)) := by
  induction calls with
  | nil => intro st; simp [dedupKeepFirst]
  | cons c rest ih =>
    intro st
    rw [List.foldl_cons]
    obtain ⟨hspan, hmods, hentries⟩ := record_entry_point_spec st c
    rw [ih (record_entry_point st c), hspan, hentries]
    cases hcand : entryCandidate st.webpack_modules_span c with
    | none =>
      simp only [List.filterMap_cons, hcand]
    | some id =>
      simp only [List.filterMap_cons, hcand]
      by_cases hin : id ∈ st.entry_points
      · rw [if_pos hin]
        simp [dedupKeepFirst, hin]
      · rw [if_neg hin]
        simp [dedupKeepFirst, hin, List.append_assoc]

/-- C8 counterexample: a top-level load call whose first argument is the
*string* literal `"100"` — outside any modules table — is not recorded as an
entry point (the visitor's entry list stays empty), because the recogniser
accepts only numeric literals. -/
theorem C8_counterexample :
    (wVisitStmtList WebpackVisitor.new exProg8).entry_points = [] ∧
    extract_webpack_require_call
      (.call ⟨0, 27⟩ (.ident ⟨0, 19⟩ "__webpack_require__") [.strLit ⟨20, 25⟩ "100"]) = none :=
  ⟨rfl, rfl⟩

/-- C8 (amended): the bundle parser recognises a load call only when the
callee is the identifier `__webpack_require__` the first argument is a
numeric literal, yielding its canonical id — every other shape, including a
string-literal first argument, contributes nothing; each recognised call
whose span is not contained in the recorded modules-table span appends its
id to the entry list when absent, so entry recording order is preserved and
duplicates are merged; inside a module function, a recognised call at
statement level records the canonical id as a dependency of the enclosing
module. -/
theorem C8_load_call_recognition :
    (∀ (e : Expr) (id : String),
      extract_webpack_require_call e = some id ↔
        ∃ sp sp1 sp2 n rest,
          e = .call sp (.ident sp1 "__webpack_require__") (.numLit sp2 n :: rest) ∧
          id = canonicalNumId n) ∧
    (∀ (st : WebpackVisitor) (calls : List Expr),
      (calls.foldl record_entry_point st).entry_points =
        st.entry_points ++
          dedupKeepFirst st.entry_points
            (calls.filterMap (entryCandidate st.webpack_modules_span))) ∧
    (∀ (sp ssp csp isp nsp : Span) (ps : List String) (n : Int),
      extract_require_calls_from_expr
        (.fnExpr sp ps [.exprStmt ssp (.call csp (.ident isp "__webpack_require__")
          [.numLit nsp n])]) [] = [canonicalNumId n]) :=
  ⟨extract_webpack_require_call_characterisation,
   fun st calls => entries_fold_spec calls st,
   fun _ _ _ _ _ _ _ => rfl⟩

end SwcMacroSys
